import Mathlib

/-!
Verification of the camera RTCPU capture request/completion protocol data
model and discipline, as declared in include/linux/tegra-firmwares.h
(embedded camrtc-capture.h ABI header).

The header under src declares the shared-memory data model: descriptor
rings, syncpoint (fence) records, capture status records, fault masks and
ISP program descriptors, together with doc comments stating their
invariants.  The run-time behaviour (RCE firmware consumer, KMD producer)
is not part of the sources; those operational parts are modelled from the
specification text and are marked as such below.
-/

namespace CamRtc

/-- Descriptor alignment in shared memory, from CAPTURE_DESCRIPTOR_ALIGN_BYTES. -/
def CAPTURE_DESCRIPTOR_ALIGN_BYTES : Nat := 64

/-- Capture status code: request not yet executed or still in progress. -/
def CAPTURE_STATUS_UNKNOWN : Nat := 0

/-- Capture status code: capture succeeded. -/
def CAPTURE_STATUS_SUCCESS : Nat := 1

/-- Capture status code: error reported by VI falcon (details in notify_bits). -/
def CAPTURE_STATUS_FALCON_ERROR : Nat := 14

/-- Capture status flag bit: channel encountered unrecoverable error and must be reset. -/
def CAPTURE_STATUS_FLAG_CHANNEL_IN_ERROR : Nat := 2 ^ 1

/-- Notify bit: start of frame capture timed out (bit 25). -/
def CAPTURE_STATUS_NOTIFY_BIT_FRAME_START_TIMEOUT : Nat := 25

/-- Notify bit: frame capture timed out between frame start and completion (bit 26). -/
def CAPTURE_STATUS_NOTIFY_BIT_FRAME_COMPLETION_TIMEOUT : Nat := 26

/-- ISP process status code: unknown. -/
def CAPTURE_ISP_STATUS_UNKNOWN : Nat := 0

/-- ISP process status code: success. -/
def CAPTURE_ISP_STATUS_SUCCESS : Nat := 1

/-- ISP process status code: error. -/
def CAPTURE_ISP_STATUS_ERROR : Nat := 2

/-- ISP program status code: unknown. -/
def CAPTURE_ISP_PROGRAM_STATUS_UNKNOWN : Nat := 0

/-- ISP program status code: program used successfully for frame processing. -/
def CAPTURE_ISP_PROGRAM_STATUS_SUCCESS : Nat := 1

/-- ISP program status code: program encountered an error. -/
def CAPTURE_ISP_PROGRAM_STATUS_ERROR : Nat := 2

/-- ISP program status code: program expired, not used by any active process request. -/
def CAPTURE_ISP_PROGRAM_STATUS_STALE : Nat := 3

/-- ISP program activation flag: activate when frame sequence id reaches a threshold. -/
def CAPTURE_ACTIVATE_FLAG_ON_SEQUENCE_ID : Nat := 1

/-- ISP program activation flag: activate when frame settings id reaches a threshold. -/
def CAPTURE_ACTIVATE_FLAG_ON_SETTINGS_ID : Nat := 2

/-- ISP program activation flag: each process request coupled with a program request. -/
def CAPTURE_ACTIVATE_FLAG_COUPLED : Nat := 4

/-- Syncpoint (fence) information record, from struct syncpoint_info:
id, threshold, grid-of-semaphores fields and shim address. -/
structure syncpoint_info where
  id : Nat
  threshold : Nat
  gos_sid : Nat
  gos_index : Nat
  gos_offset : Nat
  shim_addr : Nat
deriving DecidableEq, Repr

/-- Frame capture status record, from struct capture_status: populated by
RCE-FW when the capture request is completed. -/
structure capture_status where
  src_stream : Nat
  virtual_channel : Nat
  frame_id : Nat
  status : Nat
  sof_timestamp : Nat
  eof_timestamp : Nat
  err_data : Nat
  flags : Nat
  notify_bits : Nat
deriving DecidableEq, Repr

/-- VI frame capture context, from struct capture_descriptor (fields relevant
to the protocol discipline; surface configuration payloads elided). -/
structure capture_descriptor where
  sequence : Nat
  capture_flags : Nat
  frame_start_timeout : Nat
  frame_completion_timeout : Nat
  status : capture_status
deriving DecidableEq, Repr

/-- RTCPU side resources of a capture pipe-line, from struct
capture_channel_config (ring, fence and error-mask fields). -/
structure capture_channel_config where
  channel_flags : Nat
  requests : Nat
  requests_memoryinfo : Nat
  queue_depth : Nat
  request_size : Nat
  request_memoryinfo_size : Nat
  progress_sp : syncpoint_info
  embdata_sp : syncpoint_info
  linetimer_sp : syncpoint_info
  error_mask_uncorrectable : Nat
  error_mask_correctable : Nat
  stop_on_error_notify_bits : Nat
deriving DecidableEq, Repr

/-- RTCPU side resources of an ISP capture pipe-line, from struct
capture_channel_isp_config (request ring and program ring fields). -/
structure capture_channel_isp_config where
  channel_flags : Nat
  requests : Nat
  request_queue_depth : Nat
  request_size : Nat
  programs : Nat
  program_queue_depth : Nat
  program_size : Nat
  requests_memoryinfo : Nat
  programs_memoryinfo : Nat
  request_memoryinfo_size : Nat
  program_memoryinfo_size : Nat
  progress_sp : syncpoint_info
  stats_progress_sp : syncpoint_info
deriving DecidableEq, Repr

/-- ISP program request status, from struct capture_isp_program_status. -/
structure capture_isp_program_status where
  chan_id : Nat
  settings_id : Nat
  status : Nat
  error_mask : Nat
deriving DecidableEq, Repr

/-- ISP program descriptor, from struct isp_program_descriptor. -/
structure isp_program_descriptor where
  settings_id : Nat
  vi_channel_id : Nat
  sequence : Nat
  isp_program_offset : Nat
  isp_program_size : Nat
  isp_pb1_mem : Nat
  isp_program_status : capture_isp_program_status
  activate_flags : Nat
deriving DecidableEq, Repr

/-!
Fault classification (System Error Handler reporting).

The header documents the semantics on capture_channel_config fields
error_mask_uncorrectable and error_mask_correctable; the classifier that
implements them runs in RCE firmware and is not part of the sources.
-/

/-- Modelled from the spec: whether a detected fault bit is reported as an
uncorrected safety error.  The reporting code lives in RCE firmware (not in
the sources); per the header doc on error_mask_uncorrectable, an error is
reported as uncorrected unless its bit is set in error_mask_uncorrectable. -/
def faultReportedUncorrectable (cfg : capture_channel_config) (bit : Nat) : Bool :=
  ! cfg.error_mask_uncorrectable.testBit bit

/-- Modelled from the spec: whether a detected fault bit is reported as a
corrected safety error.  Per the header doc on error_mask_correctable, this
applies only to errors masked in error_mask_uncorrectable; such an error is
reported as corrected unless also masked in error_mask_correctable. -/
def faultReportedCorrectable (cfg : capture_channel_config) (bit : Nat) : Bool :=
  cfg.error_mask_uncorrectable.testBit bit && ! cfg.error_mask_correctable.testBit bit

/-- Modelled from the spec: total number of reports (corrected plus
uncorrected) emitted for one detected fault bit. -/
def faultReportCount (cfg : capture_channel_config) (bit : Nat) : Nat :=
  (if faultReportedUncorrectable cfg bit then 1 else 0) +
    (if faultReportedCorrectable cfg bit then 1 else 0)

/-!
Setup-time validation of channel configurations.

The header doc comments state the admissible ranges (queue_depth in
[1, 240], program_queue_depth in [1, 32], alignment to
CAPTURE_DESCRIPTOR_ALIGN_BYTES, minimum slot sizes); the validation code
runs in the channel-setup path, which is not part of the sources.
-/

/-- Modelled from the spec: setup-time acceptance check for a VI capture
channel configuration.  The checks mirror the ranges documented on struct
capture_channel_config: ring base non-zero and aligned, slot size aligned
and at least the descriptor size, queue depth in [1, 240].  descSize stands
for sizeof(struct capture_descriptor). -/
def channelConfigAccept (descSize : Nat) (cfg : capture_channel_config) : Bool :=
  if cfg.requests = 0 then false
  else if ! (cfg.requests % CAPTURE_DESCRIPTOR_ALIGN_BYTES = 0) then false
  else if ! (cfg.request_size % CAPTURE_DESCRIPTOR_ALIGN_BYTES = 0) then false
  else if cfg.request_size < descSize then false
  else if cfg.queue_depth < 1 then false
  else if 240 < cfg.queue_depth then false
  else true

/-- Declarative statement of the configuration invariant, following the
specification wording: base address and slot size are multiples of the
descriptor alignment unit, slot size at least the carried structure size,
slot count within [1, 240]. -/
def ChannelConfigValid (descSize : Nat) (cfg : capture_channel_config) : Prop :=
  cfg.requests ≠ 0 ∧
  cfg.requests % CAPTURE_DESCRIPTOR_ALIGN_BYTES = 0 ∧
  cfg.request_size % CAPTURE_DESCRIPTOR_ALIGN_BYTES = 0 ∧
  descSize ≤ cfg.request_size ∧
  1 ≤ cfg.queue_depth ∧ cfg.queue_depth ≤ 240

instance (descSize : Nat) (cfg : capture_channel_config) :
    Decidable (ChannelConfigValid descSize cfg) := by
  unfold ChannelConfigValid
  infer_instance

/-- Modelled from the spec: setup returns an accepted channel only for a
valid configuration; a rejected configuration never enters the ring. -/
def channelSetup (descSize : Nat) (cfg : capture_channel_config) :
    Option capture_channel_config :=
  if channelConfigAccept descSize cfg then some cfg else none

/-- Modelled from the spec: setup-time acceptance check for an ISP channel
configuration, mirroring the ranges documented on struct
capture_channel_isp_config: request queue depth in [1, 240] and program
queue depth in [1, 32]. -/
def ispChannelConfigAccept (cfg : capture_channel_isp_config) : Bool :=
  if cfg.requests = 0 then false
  else if ! (cfg.requests % CAPTURE_DESCRIPTOR_ALIGN_BYTES = 0) then false
  else if cfg.request_queue_depth < 1 then false
  else if 240 < cfg.request_queue_depth then false
  else if cfg.programs = 0 then false
  else if ! (cfg.programs % CAPTURE_DESCRIPTOR_ALIGN_BYTES = 0) then false
  else if cfg.program_queue_depth < 1 then false
  else if 32 < cfg.program_queue_depth then false
  else true

/-- Example VI channel configuration used to instantiate theorems: masks
set so that bit 1 is masked uncorrectable. -/
def exampleViConfig : capture_channel_config :=
  { channel_flags := 0, requests := 64, requests_memoryinfo := 64,
    queue_depth := 4, request_size := 128, request_memoryinfo_size := 64,
    progress_sp := ⟨1, 0, 0, 0, 0, 0⟩, embdata_sp := ⟨0, 0, 0, 0, 0, 0⟩,
    linetimer_sp := ⟨0, 0, 0, 0, 0, 0⟩,
    error_mask_uncorrectable := 2, error_mask_correctable := 0,
    stop_on_error_notify_bits := 0 }

/-- Example ISP channel configuration with the deepest admissible rings. -/
def exampleIspConfigOk : capture_channel_isp_config :=
  { channel_flags := 0, requests := 64, request_queue_depth := 240,
    request_size := 64, programs := 64, program_queue_depth := 32,
    program_size := 64, requests_memoryinfo := 64, programs_memoryinfo := 64,
    request_memoryinfo_size := 64, program_memoryinfo_size := 64,
    progress_sp := ⟨1, 0, 0, 0, 0, 0⟩,
    stats_progress_sp := ⟨2, 0, 0, 0, 0, 0⟩ }

/-- Example ISP channel configuration whose program ring is one slot too deep. -/
def exampleIspConfigDeep : capture_channel_isp_config :=
  { exampleIspConfigOk with program_queue_depth := 33 }

/-!
Descriptor ring submission/consumption discipline.

The ring memory layout comes from the header (capture_channel_config ring
fields, capture_descriptor sequence field); the producer/consumer
discipline itself runs in KMD and RCE firmware, absent from the sources,
and is modelled from the specification.
-/

/-- Modelled from the spec: an event on one descriptor ring, either a
producer submission carrying the descriptor sequence number or a consumer
completion of the next request. -/
inductive RingEvent where
  | submit (seq : Nat)
  | consume
deriving DecidableEq, Repr

/-- Modelled from the spec: the observable submission/completion history of
one channel: pending requests in submission order, completed requests in
completion order, and the full submission log. -/
structure RingState where
  pending : List Nat
  completed : List Nat
  submitted : List Nat
deriving DecidableEq, Repr

/-- Ring state of a freshly opened channel. -/
def ringInit : RingState := { pending := [], completed := [], submitted := [] }

/-- Modelled from the spec: one protocol step on a channel.  A submission
requires a sequence number greater than every previously submitted one; the
consumer always processes the lowest not-yet-processed sequence number,
which under strictly increasing submission is the oldest pending request. -/
def ringStep (st : RingState) : RingEvent → Option RingState
  | .submit s =>
      if st.submitted.all (fun q => decide (q < s)) then
        some { pending := st.pending ++ [s], completed := st.completed,
               submitted := st.submitted ++ [s] }
      else none
  | .consume =>
      match st.pending with
      | [] => none
      | s :: rest =>
          some { pending := rest, completed := st.completed ++ [s],
                 submitted := st.submitted }

/-- Run a sequence of ring events from a state. -/
def ringRun (st : RingState) : List RingEvent → Option RingState
  | [] => some st
  | e :: es =>
      match ringStep st e with
      | none => none
      | some st2 => ringRun st2 es

/-- Channel history invariant: the submission log splits into the completed
requests followed by the pending ones, and is strictly increasing. -/
def RingInv (st : RingState) : Prop :=
  st.submitted = st.completed ++ st.pending ∧ List.Sorted (· < ·) st.submitted

/-- Modelled from the spec: two independent channels driven concurrently;
the log records the global completion order as pairs (channel tag, seq). -/
structure TwoChanState where
  chanA : RingState
  chanB : RingState
  log : List (Bool × Nat)
deriving DecidableEq, Repr

/-- Event on one of two concurrently driven channels. -/
inductive TwoChanEvent where
  | onA (e : RingEvent)
  | onB (e : RingEvent)
deriving DecidableEq, Repr

/-- Initial state of the two-channel system. -/
def twoChanInit : TwoChanState := { chanA := ringInit, chanB := ringInit, log := [] }

/-- Step of the two-channel system: each channel steps independently and
every completion is appended to the shared completion log. -/
def twoChanStep (st : TwoChanState) : TwoChanEvent → Option TwoChanState
  | .onA e =>
      match ringStep st.chanA e with
      | none => none
      | some a2 =>
          match e, st.chanA.pending with
          | .consume, s :: _ =>
              some { chanA := a2, chanB := st.chanB, log := st.log ++ [(true, s)] }
          | _, _ => some { chanA := a2, chanB := st.chanB, log := st.log }
  | .onB e =>
      match ringStep st.chanB e with
      | none => none
      | some b2 =>
          match e, st.chanB.pending with
          | .consume, s :: _ =>
              some { chanA := st.chanA, chanB := b2, log := st.log ++ [(false, s)] }
          | _, _ => some { chanA := st.chanA, chanB := b2, log := st.log }

/-- Run a sequence of two-channel events. -/
def twoChanRun (st : TwoChanState) : List TwoChanEvent → Option TwoChanState
  | [] => some st
  | e :: es =>
      match twoChanStep st e with
      | none => none
      | some st2 => twoChanRun st2 es

/-- Interleaving where channel A completes first. -/
def crossTraceAB : List TwoChanEvent :=
  [.onA (.submit 0), .onB (.submit 0), .onA .consume, .onB .consume]

/-- Interleaving of the same per-channel events where channel B completes first. -/
def crossTraceBA : List TwoChanEvent :=
  [.onA (.submit 0), .onB (.submit 0), .onB .consume, .onA .consume]

/-- Concrete single-channel trace used by witnesses. -/
def exampleRingTrace : List RingEvent :=
  [.submit 0, .submit 1, .consume]

/-- State reached by the concrete single-channel trace. -/
def exampleRingState : RingState :=
  { pending := [1], completed := [0], submitted := [0, 1] }

/-!
Status record lifecycle of one submitted descriptor.

The status codes come from the header (CaptureStatusCodes); the write
discipline (single terminal write by the consumer, ordered before the
completion fence increment) is firmware behaviour modelled from the
specification, which matches the header doc on struct capture_status: the
status record is guaranteed to be up-to-date before completion is
signalled.
-/

/-- Modelled from the spec: observable life of one submitted descriptor
slot: the Status.status code stored in the slot and whether the completion
fence increment for the request has been performed. -/
structure SlotLife where
  status : Nat
  fenceSignaled : Bool
deriving DecidableEq, Repr

/-- Modelled from the spec: consumer-side events on one submitted slot:
a status write with a given code, or the completion fence increment. -/
inductive SlotEvent where
  | writeStatus (code : Nat)
  | signalCompletion
deriving DecidableEq, Repr

/-- Slot state at submission: status unknown, completion not signalled. -/
def slotInit : SlotLife :=
  { status := CAPTURE_STATUS_UNKNOWN, fenceSignaled := false }

/-- Modelled from the spec: one consumer step on a submitted slot.  The
consumer performs exactly one terminal write (a non-unknown code, only
while the slot still reads unknown, and before the completion increment),
and the completion increment requires the terminal write to have
happened. -/
def slotStep (st : SlotLife) : SlotEvent → Option SlotLife
  | .writeStatus c =>
      if st.status = CAPTURE_STATUS_UNKNOWN then
        if c = CAPTURE_STATUS_UNKNOWN then none
        else if st.fenceSignaled then none
        else some { status := c, fenceSignaled := false }
      else none
  | .signalCompletion =>
      if st.status = CAPTURE_STATUS_UNKNOWN then none
      else some { status := st.status, fenceSignaled := true }

/-- Run a sequence of slot events. -/
def slotRun (st : SlotLife) : List SlotEvent → Option SlotLife
  | [] => some st
  | e :: es =>
      match slotStep st e with
      | none => none
      | some st2 => slotRun st2 es

/-- Recognizer of status-write events. -/
def isStatusWrite : SlotEvent → Bool
  | .writeStatus _ => true
  | .signalCompletion => false

/-- Number of status writes in an event sequence. -/
def countWrites (events : List SlotEvent) : Nat :=
  events.countP isStatusWrite

/-- Concrete slot trace used by witnesses: one terminal write, then the
completion increment. -/
def exampleSlotTrace : List SlotEvent :=
  [.writeStatus CAPTURE_STATUS_SUCCESS, .signalCompletion]

/-- Slot state reached by the concrete slot trace. -/
def exampleSlotState : SlotLife :=
  { status := CAPTURE_STATUS_SUCCESS, fenceSignaled := true }

/-!
Channel fault handling and error state.

The masks and the stop-on-error bit set come from the header
(capture_channel_config.error_mask_uncorrectable, error_mask_correctable,
stop_on_error_notify_bits, and the doc stating that a channel in error
state will not accept any new capture requests); the state machine itself
runs in RCE firmware and is modelled from the specification.
-/

/-- Modelled from the spec: operational mode of a capture channel. -/
inductive ChanMode where
  | opened
  | inError
deriving DecidableEq, Repr

/-- Modelled from the spec: whether a detected fault forces the channel
into the error state: it does exactly when the fault is reported as
uncorrectable or its bit is set in stop_on_error_notify_bits. -/
def faultMakesError (cfg : capture_channel_config) (bit : Nat) : Bool :=
  faultReportedUncorrectable cfg bit || cfg.stop_on_error_notify_bits.testBit bit

/-- Modelled from the spec: channel state for fault handling: mode, next
sequence number to assign, outstanding (non-terminal) request sequence
numbers in submission order, and the log of terminal results as pairs
(sequence, status code). -/
structure Chan4State where
  mode : ChanMode
  nextSeq : Nat
  outstanding : List Nat
  results : List (Nat × Nat)
deriving DecidableEq, Repr

/-- Modelled from the spec: events driving the channel fault state machine. -/
inductive Chan4Event where
  | submit
  | completeOk
  | fault (bit : Nat)
  | reset
deriving DecidableEq, Repr

/-- Modelled from the spec: channel fault state machine.  A submission is
accepted only in the open mode and gets the next sequence number; a fault
detected on an open channel moves it to the error mode exactly when
faultMakesError holds; an explicit reset forces every outstanding
descriptor to a terminal error status (it does not discard them) and
returns the channel to the open mode with the sequence continuing where it
left off. -/
def chan4Step (cfg : capture_channel_config) (st : Chan4State) :
    Chan4Event → Option Chan4State
  | .submit =>
      match st.mode with
      | .opened =>
          some { mode := .opened, nextSeq := st.nextSeq + 1,
                 outstanding := st.outstanding ++ [st.nextSeq],
                 results := st.results }
      | .inError => none
  | .completeOk =>
      match st.outstanding with
      | [] => none
      | s :: rest =>
          some { mode := st.mode, nextSeq := st.nextSeq, outstanding := rest,
                 results := st.results ++ [(s, CAPTURE_STATUS_SUCCESS)] }
  | .fault bit =>
      match st.mode with
      | .opened =>
          some { mode := if faultMakesError cfg bit then .inError else .opened,
                 nextSeq := st.nextSeq, outstanding := st.outstanding,
                 results := st.results }
      | .inError => none
  | .reset =>
      some { mode := .opened, nextSeq := st.nextSeq, outstanding := [],
             results := st.results ++
               st.outstanding.map (fun s => (s, CAPTURE_STATUS_FALCON_ERROR)) }

/-- Concrete channel state used by witnesses: open, two outstanding
requests, one completed. -/
def exampleChan4State : Chan4State :=
  { mode := .opened, nextSeq := 3, outstanding := [1, 2],
    results := [(0, CAPTURE_STATUS_SUCCESS)] }

/-- Channel state after resetting the concrete example channel. -/
def exampleChan4Reset : Chan4State :=
  { mode := .opened, nextSeq := 3, outstanding := [],
    results := [(0, CAPTURE_STATUS_SUCCESS), (1, CAPTURE_STATUS_FALCON_ERROR),
                (2, CAPTURE_STATUS_FALCON_ERROR)] }

/-!
Slot reuse and ownership.

Slot addressing (sequence mod queue_depth over the requests ring declared
in capture_channel_config) follows the header; the ownership discipline is
modelled from the specification.
-/

/-- Modelled from the spec: slot-ownership view of one descriptor ring:
slot j holds the sequence number of its consumer-owned occupant, or none
when the slot is free (producer-owned, rewritable). -/
structure Ring5State where
  slotCount : Nat
  slots : Nat → Option Nat

/-- Modelled from the spec: submitting sequence number seq writes the
descriptor to slot (seq mod slot_count) and requires that slot to be free,
i.e. its previous occupant completion fence threshold already observed;
submitting into an occupied slot is a caller error and is rejected. -/
def ring5Submit (st : Ring5State) (seq : Nat) : Option Ring5State :=
  if st.slots (seq % st.slotCount) = none then
    some { slotCount := st.slotCount,
           slots := fun j =>
             if j = seq % st.slotCount then some seq else st.slots j }
  else none

/-- Modelled from the spec: observing that the progress fence reached the
threshold of request seq returns the ownership of its slot to the
producer. -/
def ring5Observe (st : Ring5State) (seq : Nat) : Ring5State :=
  { slotCount := st.slotCount,
    slots := fun j => if st.slots j = some seq then none else st.slots j }

/-- Concrete four-slot ring with slot 0 occupied by request 0. -/
def exampleRing5 : Ring5State :=
  { slotCount := 4, slots := fun j => if j = 0 then some 0 else none }

/-!
Fence (syncpoint) counter model.

The syncpoint record is struct syncpoint_info from the header, whose doc
states that the same progress syncpoint keeps incrementing for every
consecutive capture request and that the threshold field holds the initial
counter value at channel setup; the counter dynamics and the producer-side
threshold assignment are modelled from the specification.
-/

/-- Modelled from the spec: a monotonically increasing hardware counter. -/
structure Fence7 where
  value : Nat
deriving DecidableEq, Repr

/-- Modelled from the spec: consumer-side increment of the counter. -/
def fenceSignal (f : Fence7) (delta : Nat) : Fence7 :=
  { value := f.value + delta }

/-- Run a sequence of consumer increments. -/
def fenceRun (f : Fence7) : List Nat → Fence7
  | [] => f
  | d :: ds => fenceRun (fenceSignal f d) ds

/-- Modelled from the spec: completion threshold the producer assigns to
the n-th request of a channel whose counter read base at channel open. -/
def thresholdFor (base n : Nat) : Nat := base + n

/-- Completion increments performed by the consumer for n in-order
requests: one final increment per request. -/
def completionSignals (n : Nat) : List Nat := List.replicate n 1

/-!
Consumer timeout handling.

The timeout fields come from struct capture_descriptor
(frame_start_timeout, frame_completion_timeout) and the notify bits from
the header (bits 25 and 26); the consumer behaviour on expiry is modelled
from the specification.
-/

/-- Modelled from the spec: possible terminal outcomes of consuming one
capture request, including expiry of the frame start or frame completion
timeout carried by the descriptor. -/
inductive FrameOutcome where
  | frameOk
  | frameError (notify : Nat)
  | startTimeout
  | completionTimeout
deriving DecidableEq, Repr

/-- Modelled from the spec: the terminal capture status the consumer
writes for each outcome; timeout expiry still yields a terminal status
with the corresponding notify bit. -/
def outcomeStatus (frame_id : Nat) : FrameOutcome → capture_status
  | .frameOk =>
      { src_stream := 0, virtual_channel := 0, frame_id := frame_id,
        status := CAPTURE_STATUS_SUCCESS, sof_timestamp := 0,
        eof_timestamp := 0, err_data := 0, flags := 0, notify_bits := 0 }
  | .frameError notify =>
      { src_stream := 0, virtual_channel := 0, frame_id := frame_id,
        status := CAPTURE_STATUS_FALCON_ERROR, sof_timestamp := 0,
        eof_timestamp := 0, err_data := 0, flags := 0, notify_bits := notify }
  | .startTimeout =>
      { src_stream := 0, virtual_channel := 0, frame_id := frame_id,
        status := CAPTURE_STATUS_FALCON_ERROR, sof_timestamp := 0,
        eof_timestamp := 0, err_data := 0, flags := 0,
        notify_bits := 2 ^ CAPTURE_STATUS_NOTIFY_BIT_FRAME_START_TIMEOUT }
  | .completionTimeout =>
      { src_stream := 0, virtual_channel := 0, frame_id := frame_id,
        status := CAPTURE_STATUS_FALCON_ERROR, sof_timestamp := 0,
        eof_timestamp := 0, err_data := 0, flags := 0,
        notify_bits := 2 ^ CAPTURE_STATUS_NOTIFY_BIT_FRAME_COMPLETION_TIMEOUT }

/-- Modelled from the spec: on any outcome, timeout expiry included, the
consumer writes the terminal status into the descriptor and performs the
completion fence increment. -/
def consumerFinalize (frame_id : Nat) (o : FrameOutcome) (f : Fence7) :
    capture_status × Fence7 :=
  (outcomeStatus frame_id o, fenceSignal f 1)

/-!
ISP program binding.

The program descriptor record, its status codes and the activation flags
come from the header (struct isp_program_descriptor, IspProgramStatus,
IspActivateFlag); the binding resolution performed by the consumer is
modelled from the specification for all three activation conditions:
on-sequence-id (program applies from its sequence threshold onwards until
superseded), on-settings-id (program applies once the frame settings id
reaches its settings-id threshold, per the header doc of
CAPTURE_ACTIVATE_FLAG_ON_SETTINGS_ID), and coupled (exactly one program
request paired with each process request, so a coupled program serves a
single request and is never silently reused).
-/

/-- Modelled from the spec: the per-program state tracked by the binding
machinery: the identifying settings id, the activation sequence threshold,
the activation condition and the program status code. -/
structure Prog6 where
  settings_id : Nat
  sequence : Nat
  activate_flags : Nat
  status : Nat
deriving DecidableEq, Repr

/-- Projection of a program to its identity (settings id and activation
sequence), invariant under status updates. -/
def progProj (p : Prog6) : Nat × Nat := (p.settings_id, p.sequence)

/-- Modelled from the spec: whether the activation condition of a program
is satisfied for a process request with frame sequence number fseq and
frame settings id sett.  On-sequence-id: the frame sequence has reached
the program sequence threshold; on-settings-id: the frame settings id has
reached the program settings-id threshold; coupled: the program has not
yet served its single paired request (it still reads unknown). -/
def condSat (fseq sett : Nat) (p : Prog6) : Bool :=
  if p.activate_flags = CAPTURE_ACTIVATE_FLAG_ON_SEQUENCE_ID then
    decide (p.sequence ≤ fseq)
  else if p.activate_flags = CAPTURE_ACTIVATE_FLAG_ON_SETTINGS_ID then
    decide (p.settings_id ≤ sett)
  else if p.activate_flags = CAPTURE_ACTIVATE_FLAG_COUPLED then
    decide (p.status = CAPTURE_ISP_PROGRAM_STATUS_UNKNOWN)
  else false

/-- Modelled from the spec: resolution of the active program for a process
request (frame sequence fseq, frame settings id sett) over the activation
list (oldest first): the most recently activated program whose activation
condition is satisfied. -/
def activeAt : List Prog6 → Nat → Nat → Option Prog6
  | [], _, _ => none
  | p :: rest, fseq, sett =>
      match activeAt rest fseq sett with
      | some q => some q
      | none => if condSat fseq sett p then some p else none

/-- Programs activated under the on-sequence-id condition. -/
def seqProgs (l : List Prog6) : List Prog6 :=
  l.filter (fun p => decide (p.activate_flags = CAPTURE_ACTIVATE_FLAG_ON_SEQUENCE_ID))

/-- Smallest activation sequence among a list of programs. -/
def minSeq : List Prog6 → Option Nat
  | [] => none
  | p :: rest =>
      match minSeq rest with
      | none => some p.sequence
      | some m => some (min p.sequence m)

/-- Modelled from the spec: an on-sequence-id program is superseded once
it can no longer be the active program for any frame sequence at or past
the consumption point cur: some more recently activated on-sequence-id
program (among later) covers every sequence the program could still
serve.  Programs under the other conditions are never superseded by the
sequence logic. -/
def superseded (later : List Prog6) (cur : Nat) (p : Prog6) : Bool :=
  if p.activate_flags = CAPTURE_ACTIVATE_FLAG_ON_SEQUENCE_ID then
    match minSeq (seqProgs later) with
    | none => false
    | some m => decide (m ≤ max cur p.sequence)
  else false

/-- Mark a program stale (terminal). -/
def setStale (p : Prog6) : Prog6 :=
  { p with status := CAPTURE_ISP_PROGRAM_STATUS_STALE }

/-- Mark a program used: a program still in the unknown state moves to the
success state on first use; other statuses are left untouched. -/
def setUsed (p : Prog6) : Prog6 :=
  if p.status = CAPTURE_ISP_PROGRAM_STATUS_UNKNOWN then
    { p with status := CAPTURE_ISP_PROGRAM_STATUS_SUCCESS }
  else p

/-- Modelled from the spec: status refresh after each binding event: every
superseded program transitions to the terminal stale status. -/
def refresh (cur : Nat) : List Prog6 → List Prog6
  | [] => []
  | p :: rest => (if superseded rest cur p then setStale p else p) :: refresh cur rest

/-- Mark the program resolved for the request (fseq, sett), if any, as
used. -/
def markUsed (fseq sett : Nat) : List Prog6 → List Prog6
  | [] => []
  | p :: rest =>
      match activeAt rest fseq sett with
      | some _ => p :: markUsed fseq sett rest
      | none => (if condSat fseq sett p then setUsed p else p) :: rest

/-- Modelled from the spec: state of the program binding machinery of one
ISP channel: the next frame sequence to be consumed and the activation
list in activation order. -/
structure Isp6State where
  cur : Nat
  progs : List Prog6
deriving DecidableEq, Repr

/-- Modelled from the spec: binding events: activation of a program under
a given activation condition (flags) with its settings id and sequence
threshold, or consumption of the next process request carrying its frame
settings id. -/
inductive Isp6Event where
  | activate (flags sid seq : Nat)
  | consume (sett : Nat)
deriving DecidableEq, Repr

/-- Initial binding state of a freshly opened ISP channel. -/
def isp6Init : Isp6State := { cur := 0, progs := [] }

/-- Modelled from the spec: one binding step.  Activation appends the new
program (status unknown) under its condition and refreshes staleness;
consumption binds the active program for the current request, marks it
used, advances the consumption point and refreshes staleness. -/
def isp6Step (st : Isp6State) : Isp6Event → Isp6State
  | .activate flags sid s =>
      { cur := st.cur,
        progs := refresh st.cur (st.progs ++
          [{ settings_id := sid, sequence := s, activate_flags := flags,
             status := CAPTURE_ISP_PROGRAM_STATUS_UNKNOWN }]) }
  | .consume sett =>
      { cur := st.cur + 1,
        progs := refresh (st.cur + 1) (markUsed st.cur sett st.progs) }

/-- Run a sequence of binding events. -/
def isp6Run (st : Isp6State) : List Isp6Event → Isp6State
  | [] => st
  | e :: es => isp6Run (isp6Step st e) es

/-- Modelled from the spec: the program a process descriptor consumed now,
carrying frame settings id sett, resolves to: the active program as of
consumption time. -/
def bindOf (st : Isp6State) (sett : Nat) : Option Prog6 :=
  activeAt st.progs st.cur sett

/-- Declarative activity predicate: p is the active program of the list
for the request (fseq, sett) when the list splits around p, the
activation condition of p is satisfied, and the condition of no later
activation is. -/
def IsActiveFor (progs : List Prog6) (fseq sett : Nat) (p : Prog6) : Prop :=
  ∃ pre post, progs = pre ++ p :: post ∧ condSat fseq sett p = true ∧
    ∀ q ∈ post, condSat fseq sett q = false

/-- Identity equivalence of programs (status may differ). -/
def ProgEqv (p p2 : Prog6) : Prop :=
  p.settings_id = p2.settings_id ∧ p.sequence = p2.sequence ∧
    p.activate_flags = p2.activate_flags

/-- Pointwise identity equivalence of activation lists. -/
def ListEqv : List Prog6 → List Prog6 → Prop :=
  List.Forall₂ ProgEqv

/-- Pointwise equivalence for resolution of the request (fseq, sett):
same identity and same condition value. -/
def CondEqv (fseq sett : Nat) (p p2 : Prog6) : Prop :=
  progProj p = progProj p2 ∧ condSat fseq sett p = condSat fseq sett p2

/-- Every stale program of the activation list is superseded by its own
suffix (soundness of the stale marking). -/
def StaleSound (cur : Nat) : List Prog6 → Prop
  | [] => True
  | p :: rest =>
      (p.status = CAPTURE_ISP_PROGRAM_STATUS_STALE → superseded rest cur p = true) ∧
      StaleSound cur rest

/-- Every superseded program of the activation list is marked stale
(completeness of the stale marking). -/
def StaleComplete (cur : Nat) : List Prog6 → Prop
  | [] => True
  | p :: rest =>
      (superseded rest cur p = true → p.status = CAPTURE_ISP_PROGRAM_STATUS_STALE) ∧
      StaleComplete cur rest

/-- Concrete binding trace used by witnesses: activate settings 7 at
sequence 0 under the on-sequence-id condition. -/
def exampleIsp6Trace : List Isp6Event :=
  [.activate CAPTURE_ACTIVATE_FLAG_ON_SEQUENCE_ID 7 0]

/-! Claim theorems. -/

/-- A slot whose status is terminal never changes status again: a status
write requires the slot to read unknown, and the completion increment
leaves the status untouched. -/
theorem slotStep_terminal_stable {st st2 : SlotLife} {e : SlotEvent}
    (hterm : st.status ≠ CAPTURE_STATUS_UNKNOWN)
    (h : slotStep st e = some st2) : st2.status = st.status := by
  cases e with
  | writeStatus c =>
      unfold slotStep at h
      simp [hterm] at h
  | signalCompletion =>
      unfold slotStep at h
      simp only [hterm, if_false, Option.some.injEq] at h
      subst h
      rfl

/-- Accumulated facts of a slot run: write-before-signal is preserved, a
terminal status is stable with no further writes, and from the unknown
state the status is unknown exactly until the single write occurs. -/
theorem slotRun_props {events : List SlotEvent} :
    ∀ {st0 st : SlotLife}, slotRun st0 events = some st →
    ((st0.fenceSignaled = true → st0.status ≠ CAPTURE_STATUS_UNKNOWN) →
      (st.fenceSignaled = true → st.status ≠ CAPTURE_STATUS_UNKNOWN)) ∧
    (st0.status ≠ CAPTURE_STATUS_UNKNOWN →
      st.status = st0.status ∧ countWrites events = 0) ∧
    (st0.status = CAPTURE_STATUS_UNKNOWN →
      (st.status = CAPTURE_STATUS_UNKNOWN ↔ countWrites events = 0) ∧
      countWrites events ≤ 1) := by
  induction events with
  | nil =>
      intro st0 st h
      simp only [slotRun, Option.some.injEq] at h
      subst h
      refine ⟨fun hp => hp, fun hterm => ⟨rfl, rfl⟩, fun hunk => ⟨?_, ?_⟩⟩
      · simp [countWrites, hunk]
      · simp [countWrites]
  | cons e es ih =>
      intro st0 st h
      unfold slotRun at h
      cases hstep : slotStep st0 e with
      | none => simp [hstep] at h
      | some st1 =>
          simp only [hstep] at h
          have ihres := ih h
          cases e with
          | writeStatus c =>
              have hcount : countWrites (SlotEvent.writeStatus c :: es) =
                  countWrites es + 1 := by
                simp [countWrites, List.countP_cons, isStatusWrite]
              simp only [slotStep] at hstep
              by_cases h0 : st0.status = CAPTURE_STATUS_UNKNOWN
              · by_cases hc : c = CAPTURE_STATUS_UNKNOWN
                · simp [h0, hc] at hstep
                · by_cases hf : st0.fenceSignaled = true
                  · simp [h0, hc, hf] at hstep
                  · rw [if_pos h0, if_neg hc, if_neg hf] at hstep
                    injection hstep with hstep
                    subst hstep
                    have hterm1 : ({ status := c, fenceSignaled := false } :
                        SlotLife).status ≠ CAPTURE_STATUS_UNKNOWN := hc
                    have hrest := ihres.2.1 hterm1
                    refine ⟨?_, ?_, ?_⟩
                    · intro _ hsig
                      exact (ihres.1 (fun hf1 _ => by simp at hf1)) hsig
                    · intro habs
                      exact absurd h0 habs
                    · intro _
                      constructor
                      · rw [hcount, hrest.2]
                        constructor
                        · intro hs
                          exact absurd (hrest.1.symm.trans hs) hc
                        · intro habs
                          simp at habs
                      · rw [hcount, hrest.2]
              · simp [h0] at hstep
          | signalCompletion =>
              have hcount : countWrites (SlotEvent.signalCompletion :: es) =
                  countWrites es := by
                simp [countWrites, List.countP_cons, isStatusWrite]
              simp only [slotStep] at hstep
              by_cases h0 : st0.status = CAPTURE_STATUS_UNKNOWN
              · simp [h0] at hstep
              · rw [if_neg h0] at hstep
                injection hstep with hstep
                subst hstep
                have hrest := ihres.2.1 h0
                refine ⟨?_, ?_, ?_⟩
                · intro _ hsig
                  exact ihres.1 (fun _ => h0) hsig
                · intro _
                  exact ⟨hrest.1, hcount ▸ hrest.2⟩
                · intro habs
                  exact absurd habs h0

/-- Claim C2: for every submitted descriptor, Status.status reads unknown
from submission until the consumer performs exactly one terminal write; the
write happens no later than the completion fence increment, so once the
increment is observed the status is terminal; and a terminal status never
changes afterwards (no success-to-error or error-to-success transition). -/
theorem claim_C2_status_lifecycle
    (events : List SlotEvent) (st : SlotLife)
    (h : slotRun slotInit events = some st) :
    (st.fenceSignaled = true → st.status ≠ CAPTURE_STATUS_UNKNOWN) ∧
    (st.status = CAPTURE_STATUS_UNKNOWN ↔ countWrites events = 0) ∧
    countWrites events ≤ 1 ∧
    (∀ e st2, st.status ≠ CAPTURE_STATUS_UNKNOWN → slotStep st e = some st2 →
      st2.status = st.status) := by
  have hprops := slotRun_props h
  have hinit : slotInit.status = CAPTURE_STATUS_UNKNOWN := rfl
  have hunk := hprops.2.2 hinit
  refine ⟨?_, hunk.1, hunk.2, ?_⟩
  · exact hprops.1 (fun hf => by simp [slotInit] at hf)
  · intro e st2 hterm hstep
    exact slotStep_terminal_stable hterm hstep

/-- Witness for claim C2 at a concrete write-then-signal trace. -/
theorem claim_C2_witness :
    exampleSlotState.status = CAPTURE_STATUS_UNKNOWN ↔ countWrites exampleSlotTrace = 0 :=
  (claim_C2_status_lifecycle exampleSlotTrace exampleSlotState (by decide)).2.1

/-- One ring step preserves the channel history invariant. -/
theorem ringStep_inv {st st2 : RingState} {e : RingEvent}
    (hinv : RingInv st) (h : ringStep st e = some st2) : RingInv st2 := by
  obtain ⟨hsplit, hsorted⟩ := hinv
  cases e with
  | submit s =>
      unfold ringStep at h
      by_cases hall : st.submitted.all (fun q => decide (q < s)) = true
      · simp only [hall, if_true, Option.some.injEq] at h
        subst h
        have hlt : ∀ q ∈ st.submitted, q < s := by
          intro q hq
          have := List.all_eq_true.mp hall q hq
          exact of_decide_eq_true this
        constructor
        · simp only [hsplit, List.append_assoc]
        · refine List.pairwise_append.mpr ⟨hsorted, List.sorted_singleton s, ?_⟩
          intro a ha b hb
          have hb2 : b = s := List.mem_singleton.mp hb
          subst hb2
          exact hlt a ha
      · simp only [Bool.not_eq_true] at hall
        simp [hall] at h
  | consume =>
      unfold ringStep at h
      cases hp : st.pending with
      | nil => simp [hp] at h
      | cons s rest =>
          simp only [hp, Option.some.injEq] at h
          subst h
          constructor
          · simp only [hsplit, hp, List.append_assoc, List.singleton_append]
          · simpa using hsorted

/-- A ring run from an invariant state ends in an invariant state. -/
theorem ringRun_inv {events : List RingEvent} :
    ∀ {st st2 : RingState}, RingInv st → ringRun st events = some st2 → RingInv st2 := by
  induction events with
  | nil =>
      intro st st2 hinv h
      simp only [ringRun, Option.some.injEq] at h
      subst h
      exact hinv
  | cons e es ih =>
      intro st st2 hinv h
      unfold ringRun at h
      cases hstep : ringStep st e with
      | none => simp [hstep] at h
      | some st1 =>
          simp only [hstep] at h
          exact ih (ringStep_inv hinv hstep) h

/-- Claim C1: on every channel, requests complete in exactly submission
order: the completed log is an initial segment of the submission log, it is
strictly increasing (no two requests signal out of sequence), every
completed request precedes every pending one, and the consumer always
processes the lowest not-yet-processed sequence number.  Across two
channels, the same per-channel events admit interleavings with different
global completion orders, so no cross-channel ordering is guaranteed. -/
theorem claim_C1_completion_order
    (events : List RingEvent) (st : RingState)
    (h : ringRun ringInit events = some st) :
    st.submitted = st.completed ++ st.pending ∧
    List.Sorted (· < ·) st.completed ∧
    (∀ c ∈ st.completed, ∀ p ∈ st.pending, c < p) ∧
    (∀ s rest, st.pending = s :: rest → ∀ q ∈ st.pending, s ≤ q) ∧
    ((twoChanRun twoChanInit crossTraceAB).map TwoChanState.chanA =
        (twoChanRun twoChanInit crossTraceBA).map TwoChanState.chanA ∧
      (twoChanRun twoChanInit crossTraceAB).map TwoChanState.chanB =
        (twoChanRun twoChanInit crossTraceBA).map TwoChanState.chanB ∧
      (twoChanRun twoChanInit crossTraceAB).map TwoChanState.log ≠
        (twoChanRun twoChanInit crossTraceBA).map TwoChanState.log) := by
  have hinit : RingInv ringInit := by
    constructor
    · rfl
    · exact List.sorted_nil
  have hinv := ringRun_inv hinit h
  obtain ⟨hsplit, hsorted⟩ := hinv
  have hparts := List.pairwise_append.mp (hsplit ▸ hsorted)
  refine ⟨hsplit, hparts.1, hparts.2.2, ?_, ?_⟩
  · intro s rest hp q hq
    have hpend : List.Sorted (· < ·) st.pending := hparts.2.1
    rw [hp] at hpend hq
    rcases List.mem_cons.mp hq with hqs | hqrest
    · exact le_of_eq hqs.symm
    · exact le_of_lt (List.rel_of_sorted_cons hpend q hqrest)
  · exact ⟨by decide, by decide, by decide⟩

/-- Witness for claim C1 at a concrete trace of two submissions and one
completion. -/
theorem claim_C1_witness :
    exampleRingState.submitted = exampleRingState.completed ++ exampleRingState.pending :=
  (claim_C1_completion_order exampleRingTrace exampleRingState (by decide)).1

/-- Claim C3: for every channel and every detected fault bit, a bit set in
neither mask is reported as uncorrectable by default; a bit set in
uncorrectable_mask is not reported as uncorrectable but is still reported
as correctable, unless it is also set in correctable_mask, in which case it
is not reported at all (zero reports for that bit). -/
theorem claim_C3_fault_mask_classification
    (cfg : capture_channel_config) (bit : Nat) :
    (cfg.error_mask_uncorrectable.testBit bit = false →
      cfg.error_mask_correctable.testBit bit = false →
      faultReportedUncorrectable cfg bit = true) ∧
    (cfg.error_mask_uncorrectable.testBit bit = true →
      faultReportedUncorrectable cfg bit = false ∧
      (cfg.error_mask_correctable.testBit bit = false →
        faultReportedCorrectable cfg bit = true)) ∧
    (cfg.error_mask_uncorrectable.testBit bit = true →
      cfg.error_mask_correctable.testBit bit = true →
      faultReportCount cfg bit = 0) := by
  refine ⟨?_, ?_, ?_⟩
  · intro hu _
    simp [faultReportedUncorrectable, hu]
  · intro hu
    constructor
    · simp [faultReportedUncorrectable, hu]
    · intro hc
      simp [faultReportedCorrectable, hu, hc]
  · intro hu hc
    simp [faultReportCount, faultReportedUncorrectable, faultReportedCorrectable, hu, hc]

/-- Witness for claim C3 at a concrete channel configuration. -/
theorem claim_C3_witness :
    faultReportedUncorrectable exampleViConfig 5 = true :=
  (claim_C3_fault_mask_classification exampleViConfig 5).1 (by decide) (by decide)

/-- Claim C8: setup accepts a channel configuration exactly when the ring
base address and per-slot size are multiples of the descriptor alignment
unit (base non-zero), the slot size is at least the descriptor size, and
the slot count lies in [1, 240]; an invalid configuration is rejected at
setup and never enters the ring. -/
theorem claim_C8_setup_validation
    (descSize : Nat) (cfg : capture_channel_config) :
    (channelConfigAccept descSize cfg = true ↔ ChannelConfigValid descSize cfg) ∧
    (¬ ChannelConfigValid descSize cfg → channelSetup descSize cfg = none) ∧
    (ChannelConfigValid descSize cfg → channelSetup descSize cfg = some cfg) := by
  have hiff : channelConfigAccept descSize cfg = true ↔ ChannelConfigValid descSize cfg := by
    unfold channelConfigAccept ChannelConfigValid
    constructor
    · intro h
      by_cases h0 : cfg.requests = 0
      · simp [h0] at h
      by_cases h1 : cfg.requests % CAPTURE_DESCRIPTOR_ALIGN_BYTES = 0
      case neg => simp [h0, h1] at h
      by_cases h2 : cfg.request_size % CAPTURE_DESCRIPTOR_ALIGN_BYTES = 0
      case neg => simp [h0, h1, h2] at h
      by_cases h3 : cfg.request_size < descSize
      case pos => simp [h0, h1, h2, h3] at h
      by_cases h4 : cfg.queue_depth < 1
      case pos => simp [h0, h1, h2, h3, h4] at h
      by_cases h5 : 240 < cfg.queue_depth
      case pos => simp [h0, h1, h2, h3, h4, h5] at h
      exact ⟨h0, h1, h2, Nat.le_of_not_lt h3, Nat.le_of_not_lt h4, Nat.le_of_not_lt h5⟩
    · rintro ⟨h0, h1, h2, h3, h4, h5⟩
      simp [h0, h1, h2, Nat.not_lt_of_le h3, Nat.not_lt_of_le h4, Nat.not_lt_of_le h5]
  refine ⟨hiff, ?_, ?_⟩
  · intro hv
    unfold channelSetup
    have : channelConfigAccept descSize cfg = false := by
      cases hacc : channelConfigAccept descSize cfg
      · rfl
      · exact absurd (hiff.mp hacc) hv
    simp [this]
  · intro hv
    unfold channelSetup
    simp [hiff.mpr hv]

/-- Witness for claim C8 at a concrete valid configuration. -/
theorem claim_C8_witness :
    channelSetup 64 exampleViConfig = some exampleViConfig :=
  (claim_C8_setup_validation 64 exampleViConfig).2.2 (by decide)

/-- Claim C10: every accepted ISP channel configuration has a program ring
queue depth within [1, 32], a strictly tighter bound than the [1, 240]
bound on descriptor request queues: the value 240 is accepted for a
request queue, while any program queue depth above 32 is rejected. -/
theorem claim_C10_program_queue_depth_bound :
    (∀ cfg : capture_channel_isp_config, ispChannelConfigAccept cfg = true →
      1 ≤ cfg.program_queue_depth ∧ cfg.program_queue_depth ≤ 32) ∧
    (32 : Nat) < 240 ∧
    (∃ cfg : capture_channel_isp_config,
      ispChannelConfigAccept cfg = true ∧ cfg.request_queue_depth = 240) ∧
    (∀ cfg : capture_channel_isp_config, 32 < cfg.program_queue_depth →
      ispChannelConfigAccept cfg = false) := by
  have hbound : ∀ cfg : capture_channel_isp_config, ispChannelConfigAccept cfg = true →
      1 ≤ cfg.program_queue_depth ∧ cfg.program_queue_depth ≤ 32 := by
    intro cfg h
    unfold ispChannelConfigAccept at h
    by_cases h0 : cfg.requests = 0
    · simp [h0] at h
    by_cases h1 : cfg.requests % CAPTURE_DESCRIPTOR_ALIGN_BYTES = 0
    case neg => simp [h0, h1] at h
    by_cases h2 : cfg.request_queue_depth < 1
    case pos => simp [h0, h1, h2] at h
    by_cases h3 : 240 < cfg.request_queue_depth
    case pos => simp [h0, h1, h2, h3] at h
    by_cases h4 : cfg.programs = 0
    case pos => simp [h0, h1, h2, h3, h4] at h
    by_cases h5 : cfg.programs % CAPTURE_DESCRIPTOR_ALIGN_BYTES = 0
    case neg => simp [h0, h1, h2, h3, h4, h5] at h
    by_cases h6 : cfg.program_queue_depth < 1
    case pos => simp [h0, h1, h2, h3, h4, h5, h6] at h
    by_cases h7 : 32 < cfg.program_queue_depth
    case pos => simp [h0, h1, h2, h3, h4, h5, h6, h7] at h
    exact ⟨Nat.le_of_not_lt h6, Nat.le_of_not_lt h7⟩
  refine ⟨hbound, by decide, ?_, ?_⟩
  · exact ⟨exampleIspConfigOk, by decide, rfl⟩
  · intro cfg hgt
    cases hacc : ispChannelConfigAccept cfg
    · rfl
    · exact absurd ((hbound cfg hacc).2) (Nat.not_le_of_lt hgt)

/-- Witness for claim C10 at a concrete over-deep program ring. -/
theorem claim_C10_witness :
    ispChannelConfigAccept exampleIspConfigDeep = false :=
  claim_C10_program_queue_depth_bound.2.2.2 exampleIspConfigDeep (by decide)

/-- Claim C4: a fault detected on an open channel leaves it open exactly
when the fault is masked-correctable (bit masked in uncorrectable_mask and
not in stop_on_error_notify_bits) and moves it to the error state exactly
when the fault is reported uncorrectable or its stop-on-error bit is set;
in the error state every new submission is rejected and only an explicit
reset returns the channel to the open state; the reset forces every
outstanding descriptor to a terminal error status instead of discarding
it, and the reopened channel accepts new submissions with the sequence
continuing where it left off. -/
theorem claim_C4_channel_error_state
    (cfg : capture_channel_config) (bit : Nat) (st st2 : Chan4State) :
    (st.mode = ChanMode.opened → chan4Step cfg st (.fault bit) = some st2 →
      (st2.mode = ChanMode.opened ↔ faultMakesError cfg bit = false) ∧
      (st2.mode = ChanMode.inError ↔
        (faultReportedUncorrectable cfg bit = true ∨
          cfg.stop_on_error_notify_bits.testBit bit = true)) ∧
      st2.outstanding = st.outstanding ∧ st2.nextSeq = st.nextSeq) ∧
    (st.mode = ChanMode.inError → chan4Step cfg st .submit = none) ∧
    (∀ e, st.mode = ChanMode.inError → chan4Step cfg st e = some st2 →
      st2.mode = ChanMode.opened → e = Chan4Event.reset) ∧
    (chan4Step cfg st .reset = some st2 →
      st2.mode = ChanMode.opened ∧ st2.outstanding = [] ∧
      st2.nextSeq = st.nextSeq ∧
      (∀ s ∈ st.outstanding, (s, CAPTURE_STATUS_FALCON_ERROR) ∈ st2.results) ∧
      chan4Step cfg st2 .submit =
        some { mode := ChanMode.opened, nextSeq := st.nextSeq + 1,
               outstanding := [st.nextSeq], results := st2.results }) := by
  obtain ⟨mo, ns, outs, res⟩ := st
  refine ⟨?_, ?_, ?_, ?_⟩
  · intro hm hstep
    simp only at hm
    subst hm
    simp only [chan4Step] at hstep
    injection hstep with hstep
    subst hstep
    cases hfe : faultMakesError cfg bit with
    | false =>
        refine ⟨by simp [hfe], ?_, rfl, rfl⟩
        have hor := hfe
        unfold faultMakesError at hor
        rcases Bool.or_eq_false_iff.mp hor with ⟨h1, h2⟩
        simp [hfe, h1, h2]
    | true =>
        refine ⟨by simp [hfe], ?_, rfl, rfl⟩
        have hor := hfe
        unfold faultMakesError at hor
        simp only [Bool.or_eq_true] at hor
        simp [hfe, hor]
  · intro hm
    simp only at hm
    subst hm
    simp [chan4Step]
  · intro e hm hstep hopen
    simp only at hm
    subst hm
    cases e with
    | submit => simp [chan4Step] at hstep
    | completeOk =>
        cases outs with
        | nil => simp [chan4Step] at hstep
        | cons s rest =>
            simp only [chan4Step] at hstep
            injection hstep with hstep
            subst hstep
            simp at hopen
    | fault b => simp [chan4Step] at hstep
    | reset => rfl
  · intro hstep
    simp only [chan4Step] at hstep
    injection hstep with hstep
    subst hstep
    refine ⟨rfl, rfl, rfl, ?_, ?_⟩
    · intro s hs
      exact List.mem_append_right res (List.mem_map_of_mem _ hs)
    · simp [chan4Step]

/-- Witness for claim C4: resetting the concrete example channel reopens it. -/
theorem claim_C4_witness :
    exampleChan4Reset.mode = ChanMode.opened :=
  ((claim_C4_channel_error_state exampleViConfig 0 exampleChan4State
      exampleChan4Reset).2.2.2 (by decide)).1

/-- Claim C5: a submission with sequence number seq is written to slot
(seq mod slot_count) and requires that slot to be free; a slot still
holding a consumer-owned occupant rejects the submission, so under this
precondition no consumer-owned descriptor is overwritten; observing the
previous occupant completion threshold frees the slot, after which
resubmission succeeds. -/
theorem claim_C5_slot_reuse_guard
    (st st2 : Ring5State) (seq seq2 : Nat) (j q : Nat) :
    (ring5Submit st seq = some st2 →
      st.slots (seq % st.slotCount) = none ∧
      st2.slots (seq % st.slotCount) = some seq ∧
      (st.slots j = some q → st2.slots j = some q)) ∧
    (st.slots (seq % st.slotCount) = some q → ring5Submit st seq = none) ∧
    (st.slots (seq2 % st.slotCount) = some seq →
      ∃ st3, ring5Submit (ring5Observe st seq) seq2 = some st3) := by
  refine ⟨?_, ?_, ?_⟩
  · intro h
    unfold ring5Submit at h
    by_cases hfree : st.slots (seq % st.slotCount) = none
    · rw [if_pos hfree] at h
      injection h with h
      subst h
      refine ⟨hfree, by simp, ?_⟩
      intro hj
      simp only
      by_cases hji : j = seq % st.slotCount
      · rw [hji] at hj
        rw [hfree] at hj
        exact absurd hj (by simp)
      · rw [if_neg hji]
        exact hj
    · rw [if_neg hfree] at h
      exact absurd h (by simp)
  · intro hocc
    unfold ring5Submit
    rw [if_neg (by simp [hocc])]
  · intro hocc
    refine ⟨{ slotCount := st.slotCount,
              slots := fun j2 =>
                if j2 = seq2 % st.slotCount then some seq2
                else (ring5Observe st seq).slots j2 }, ?_⟩
    unfold ring5Submit
    have hfree : (ring5Observe st seq).slots (seq2 % (ring5Observe st seq).slotCount) = none := by
      unfold ring5Observe
      simp only
      rw [if_pos hocc]
    rw [if_pos hfree]
    rfl

/-- Witness for claim C5: submitting sequence 4 into the concrete ring
whose slot 0 is still owned by request 0 is rejected. -/
theorem claim_C5_witness :
    ring5Submit exampleRing5 4 = none :=
  (claim_C5_slot_reuse_guard exampleRing5 exampleRing5 4 0 0 0).2.1 rfl

/-- The fence counter never decreases along any sequence of consumer
increments. -/
theorem fenceRun_mono (deltas : List Nat) :
    ∀ f : Fence7, f.value ≤ (fenceRun f deltas).value := by
  induction deltas with
  | nil => intro f; exact Nat.le_refl _
  | cons d ds ih =>
      intro f
      calc f.value ≤ (fenceSignal f d).value := Nat.le_add_right _ _
        _ ≤ (fenceRun (fenceSignal f d) ds).value := ih _

/-- After the consumer performs the completion increments of the first n
requests, the counter reads exactly base + n. -/
theorem fenceRun_completion (n : Nat) :
    ∀ base : Nat, (fenceRun { value := base } (completionSignals n)).value = base + n := by
  induction n with
  | zero => intro base; rfl
  | succ k ih =>
      intro base
      have hrep : completionSignals (k + 1) = 1 :: completionSignals k := by
        simp [completionSignals, List.replicate_succ]
      rw [hrep]
      show (fenceRun { value := base + 1 } (completionSignals k)).value = base + (k + 1)
      rw [ih (base + 1)]
      omega

/-- Claim C7: for every open channel the fence counter is monotonic and
never reset across requests; the completion threshold of the n-th request
equals the base value at channel open plus n, which is exactly the counter
value after the consumer completes the first n requests in order, so a
reader computes the expected threshold from the base value alone; and
reaching the threshold of request n implies having reached the threshold
of every earlier request. -/
theorem claim_C7_fence_monotone_threshold
    (base n m : Nat) (deltas : List Nat) (f : Fence7) :
    f.value ≤ (fenceRun f deltas).value ∧
    thresholdFor base n = base + n ∧
    (fenceRun { value := base } (completionSignals n)).value = thresholdFor base n ∧
    (m ≤ n → ∀ v : Nat, thresholdFor base n ≤ v → thresholdFor base m ≤ v) := by
  refine ⟨fenceRun_mono deltas f, rfl, fenceRun_completion n base, ?_⟩
  intro hmn v hv
  unfold thresholdFor at hv ⊢
  omega

/-- Witness for claim C7 at concrete base 5, requests 3 and 2. -/
theorem claim_C7_witness :
    thresholdFor 5 2 ≤ thresholdFor 5 3 :=
  (claim_C7_fence_monotone_threshold 5 3 2 [1, 2] { value := 7 }).2.2.2
    (by decide) (thresholdFor 5 3) (Nat.le_refl _)

/-- Claim C9: for every request, on every outcome, timeout expiry
included, the consumer writes a terminal status (never left unknown, with
the corresponding timeout notify bit set) and performs the completion
fence increment, so a producer waiting for the completion threshold is
never left waiting indefinitely. -/
theorem claim_C9_timeout_terminal_status
    (frame_id : Nat) (o : FrameOutcome) (f : Fence7) (threshold : Nat) :
    (consumerFinalize frame_id o f).1.status ≠ CAPTURE_STATUS_UNKNOWN ∧
    (consumerFinalize frame_id o f).2.value = f.value + 1 ∧
    (threshold ≤ f.value + 1 →
      threshold ≤ (consumerFinalize frame_id o f).2.value) ∧
    (o = FrameOutcome.startTimeout →
      Nat.testBit (consumerFinalize frame_id o f).1.notify_bits
        CAPTURE_STATUS_NOTIFY_BIT_FRAME_START_TIMEOUT = true) ∧
    (o = FrameOutcome.completionTimeout →
      Nat.testBit (consumerFinalize frame_id o f).1.notify_bits
        CAPTURE_STATUS_NOTIFY_BIT_FRAME_COMPLETION_TIMEOUT = true) := by
  refine ⟨?_, rfl, ?_, ?_, ?_⟩
  · cases o <;> simp [consumerFinalize, outcomeStatus, CAPTURE_STATUS_SUCCESS,
      CAPTURE_STATUS_FALCON_ERROR, CAPTURE_STATUS_UNKNOWN]
  · intro h
    exact h
  · intro ho
    subst ho
    simp [consumerFinalize, outcomeStatus, Nat.testBit_two_pow_self]
  · intro ho
    subst ho
    simp [consumerFinalize, outcomeStatus, Nat.testBit_two_pow_self]

/-- Witness for claim C9: a start-timeout outcome sets notify bit 25. -/
theorem claim_C9_witness :
    Nat.testBit (consumerFinalize 0 FrameOutcome.startTimeout { value := 0 }).1.notify_bits
      CAPTURE_STATUS_NOTIFY_BIT_FRAME_START_TIMEOUT = true :=
  (claim_C9_timeout_terminal_status 0 FrameOutcome.startTimeout
      { value := 0 } 1).2.2.2.1 rfl

/-- Resolution fails exactly when no activated program has its condition
satisfied for the request. -/
theorem activeAt_none_iff (fseq sett : Nat) :
    ∀ l : List Prog6, activeAt l fseq sett = none ↔
      ∀ q ∈ l, condSat fseq sett q = false := by
  intro l
  induction l with
  | nil => simp [activeAt]
  | cons p rest ih =>
      simp only [activeAt]
      cases h : activeAt rest fseq sett with
      | some q =>
          constructor
          · intro habs
            exact absurd habs (by simp)
          · intro hall
            have hrest : ∀ q2 ∈ rest, condSat fseq sett q2 = false :=
              fun q2 hq2 => hall q2 (List.mem_cons_of_mem p hq2)
            rw [ih.mpr hrest] at h
            exact absurd h (by simp)
      | none =>
          have hrest := ih.mp h
          by_cases hp : condSat fseq sett p = true
          · rw [if_pos hp]
            constructor
            · intro habs
              exact absurd habs (by simp)
            · intro hall
              have hc := hall p (List.mem_cons_self p rest)
              rw [hp] at hc
              exact absurd hc (by simp)
          · rw [if_neg hp]
            have hp2 : condSat fseq sett p = false := Bool.eq_false_iff.mpr hp
            constructor
            · intro _ q hq
              rcases List.mem_cons.mp hq with h1 | h2
              · subst h1
                exact hp2
              · exact hrest q h2
            · intro _
              rfl

/-- Resolution for a request returns p exactly when p is the active
program for it: the activation condition of p is satisfied and that of no
later activation is.  In particular, under on-sequence-id, a program
activated with sequence s0 serves every request sequence from s0 onwards
until a later activation covers it. -/
theorem activeAt_some_iff (fseq sett : Nat) :
    ∀ (l : List Prog6) (p : Prog6),
      activeAt l fseq sett = some p ↔ IsActiveFor l fseq sett p := by
  intro l
  induction l with
  | nil =>
      intro p
      constructor
      · intro habs
        exact absurd habs (by simp [activeAt])
      · rintro ⟨pre, post, heq, -, -⟩
        cases pre with
        | nil => simp at heq
        | cons y pre2 => simp at heq
  | cons x rest ih =>
      intro p
      simp only [activeAt]
      cases h : activeAt rest fseq sett with
      | some q =>
          have hq : IsActiveFor rest fseq sett q := (ih q).mp h
          constructor
          · intro hpq
            have hpq2 : q = p := by
              injection hpq
            subst hpq2
            obtain ⟨pre, post, heq, hle, hpost⟩ := hq
            exact ⟨x :: pre, post, by rw [heq, List.cons_append], hle, hpost⟩
          · rintro ⟨pre, post, heq, hle, hpost⟩
            cases pre with
            | nil =>
                simp only [List.nil_append, List.cons.injEq] at heq
                obtain ⟨hxp, hrest⟩ := heq
                subst hrest
                rw [(activeAt_none_iff fseq sett rest).mpr hpost] at h
                exact absurd h (by simp)
            | cons y pre2 =>
                simp only [List.cons_append, List.cons.injEq] at heq
                obtain ⟨hxy, hrest⟩ := heq
                have : IsActiveFor rest fseq sett p := ⟨pre2, post, hrest, hle, hpost⟩
                rw [(ih p).mpr this] at h
                injection h with h
                rw [h]
      | none =>
          have hrest := (activeAt_none_iff fseq sett rest).mp h
          by_cases hx : condSat fseq sett x = true
          · rw [if_pos hx]
            constructor
            · intro hpx
              have hpx2 : x = p := by
                injection hpx
              subst hpx2
              exact ⟨[], rest, rfl, hx, hrest⟩
            · rintro ⟨pre, post, heq, hle, hpost⟩
              cases pre with
              | nil =>
                  simp only [List.nil_append, List.cons.injEq] at heq
                  rw [heq.1]
              | cons y pre2 =>
                  simp only [List.cons_append, List.cons.injEq] at heq
                  have hmem : p ∈ rest := by
                    rw [heq.2]
                    exact List.mem_append_right pre2 (List.mem_cons_self p post)
                  have hc := hrest p hmem
                  rw [hle] at hc
                  exact absurd hc (by simp)
          · rw [if_neg hx]
            constructor
            · intro habs
              exact absurd habs (by simp)
            · rintro ⟨pre, post, heq, hle, hpost⟩
              cases pre with
              | nil =>
                  simp only [List.nil_append, List.cons.injEq] at heq
                  rw [heq.1] at hx
                  exact absurd hle hx
              | cons y pre2 =>
                  simp only [List.cons_append, List.cons.injEq] at heq
                  have hmem : p ∈ rest := by
                    rw [heq.2]
                    exact List.mem_append_right pre2 (List.mem_cons_self p post)
                  have hc := hrest p hmem
                  rw [hle] at hc
                  exact absurd hc (by simp)

/-- Program identity equivalence is reflexive. -/
theorem progEqv_refl (p : Prog6) : ProgEqv p p := ⟨rfl, rfl, rfl⟩

/-- List identity equivalence is reflexive. -/
theorem listEqv_refl : ∀ l : List Prog6, ListEqv l l := by
  intro l
  induction l with
  | nil => exact List.Forall₂.nil
  | cons p rest ih => exact List.Forall₂.cons (progEqv_refl p) ih

/-- Staleness marking preserves program identities. -/
theorem listEqv_refresh (cur : Nat) : ∀ l : List Prog6, ListEqv (refresh cur l) l := by
  intro l
  induction l with
  | nil => exact List.Forall₂.nil
  | cons p rest ih =>
      simp only [refresh]
      refine List.Forall₂.cons ?_ ih
      by_cases h : superseded rest cur p = true
      · rw [if_pos h]
        exact ⟨rfl, rfl, rfl⟩
      · rw [if_neg h]
        exact progEqv_refl p

/-- Marking the bound program used preserves program identities. -/
theorem listEqv_markUsed (fseq sett : Nat) :
    ∀ l : List Prog6, ListEqv (markUsed fseq sett l) l := by
  intro l
  induction l with
  | nil => exact List.Forall₂.nil
  | cons p rest ih =>
      simp only [markUsed]
      cases h : activeAt rest fseq sett with
      | some q => exact List.Forall₂.cons (progEqv_refl p) ih
      | none =>
          refine List.Forall₂.cons ?_ (listEqv_refl rest)
          by_cases hle : condSat fseq sett p = true
          · rw [if_pos hle]
            unfold setUsed
            by_cases hst : p.status = CAPTURE_ISP_PROGRAM_STATUS_UNKNOWN
            · rw [if_pos hst]
              exact ⟨rfl, rfl, rfl⟩
            · rw [if_neg hst]
              exact progEqv_refl p
          · rw [if_neg hle]
            exact progEqv_refl p

/-- Identity-equivalent lists have the same smallest activation sequence. -/
theorem minSeq_eqv : ∀ {l l2 : List Prog6}, ListEqv l l2 → minSeq l = minSeq l2 := by
  intro l l2 h
  induction h with
  | cons h1 h2 ih =>
      simp only [minSeq, ih]
      rw [h1.2.1]
  | nil => rfl

/-- Identity-equivalent lists select identity-equivalent on-sequence-id
programs. -/
theorem seqProgs_eqv : ∀ {l l2 : List Prog6}, ListEqv l l2 →
    ListEqv (seqProgs l) (seqProgs l2) := by
  intro l l2 h
  induction h with
  | nil => exact List.Forall₂.nil
  | cons h1 h2 ih =>
      rename_i a b l1 l2
      simp only [seqProgs, List.filter_cons]
      rw [h1.2.2]
      by_cases hf : b.activate_flags = CAPTURE_ACTIVATE_FLAG_ON_SEQUENCE_ID
      · rw [if_pos (by simp [hf]), if_pos (by simp [hf])]
        exact List.Forall₂.cons h1 ih
      · rw [if_neg (by simp [hf]), if_neg (by simp [hf])]
        exact ih

/-- A superseded program is an on-sequence-id program. -/
theorem superseded_flag {later : List Prog6} {p : Prog6} {cur : Nat}
    (h : superseded later cur p = true) :
    p.activate_flags = CAPTURE_ACTIVATE_FLAG_ON_SEQUENCE_ID := by
  by_cases hf : p.activate_flags = CAPTURE_ACTIVATE_FLAG_ON_SEQUENCE_ID
  · exact hf
  · unfold superseded at h
    rw [if_neg hf] at h
    exact absurd h (by simp)

/-- Supersession depends only on program identities. -/
theorem superseded_eqv {later later2 : List Prog6} {p p2 : Prog6} {cur : Nat}
    (h : ListEqv later later2) (hp : ProgEqv p p2) :
    superseded later cur p = superseded later2 cur p2 := by
  unfold superseded
  rw [hp.2.2, hp.2.1, minSeq_eqv (seqProgs_eqv h)]

/-- Supersession is stable as the consumption point advances. -/
theorem superseded_mono_cur {later : List Prog6} {p : Prog6} {cur cur2 : Nat}
    (hc : cur ≤ cur2) (h : superseded later cur p = true) :
    superseded later cur2 p = true := by
  have hf := superseded_flag h
  unfold superseded at h ⊢
  rw [if_pos hf] at h ⊢
  cases hm : minSeq (seqProgs later) with
  | none => rw [hm] at h; simp at h
  | some m =>
      rw [hm] at h
      have hle : m ≤ max cur p.sequence := of_decide_eq_true h
      have : m ≤ max cur2 p.sequence :=
        le_trans hle (max_le_max hc (Nat.le_refl _))
      exact decide_eq_true this

/-- Smallest activation sequence of a list extended by one program. -/
theorem minSeq_append_single : ∀ (l : List Prog6) (x : Prog6),
    minSeq (l ++ [x]) = some (match minSeq l with
      | none => x.sequence
      | some m => min m x.sequence) := by
  intro l x
  induction l with
  | nil => rfl
  | cons p rest ih =>
      show minSeq (p :: (rest ++ [x])) = _
      simp only [minSeq, ih]
      cases hm : minSeq rest with
      | none => rfl
      | some m =>
          simp only [minSeq]
          rw [Nat.min_assoc]

/-- Supersession is stable under activating one more program, whatever its
activation condition. -/
theorem superseded_append_single {later : List Prog6} {p x : Prog6} {cur : Nat}
    (h : superseded later cur p = true) :
    superseded (later ++ [x]) cur p = true := by
  have hf := superseded_flag h
  unfold superseded at h ⊢
  rw [if_pos hf] at h ⊢
  have hsplit : seqProgs (later ++ [x]) = seqProgs later ++ seqProgs [x] := by
    simp [seqProgs, List.filter_append]
  rw [hsplit]
  by_cases hxf : x.activate_flags = CAPTURE_ACTIVATE_FLAG_ON_SEQUENCE_ID
  · have hx1 : seqProgs [x] = [x] := by
      simp [seqProgs, List.filter_cons, hxf]
    rw [hx1, minSeq_append_single]
    cases hm : minSeq (seqProgs later) with
    | none => rw [hm] at h; simp at h
    | some m =>
        rw [hm] at h
        have hle : m ≤ max cur p.sequence := of_decide_eq_true h
        simp only
        exact decide_eq_true (le_trans (Nat.min_le_left m x.sequence) hle)
  · have hx0 : seqProgs [x] = [] := by
      simp [seqProgs, List.filter_cons, hxf]
    rw [hx0, List.append_nil]
    exact h

/-- Staleness marking is sound after a refresh at the same point. -/
theorem staleSound_refresh (cur : Nat) :
    ∀ l : List Prog6, StaleSound cur l → StaleSound cur (refresh cur l) := by
  intro l
  induction l with
  | nil => intro h; exact h
  | cons p rest ih =>
      rintro ⟨hhead, hrest⟩
      simp only [refresh]
      by_cases hsup : superseded rest cur p = true
      · rw [if_pos hsup]
        refine ⟨?_, ih hrest⟩
        intro _
        rw [superseded_eqv (listEqv_refresh cur rest) (⟨rfl, rfl, rfl⟩ : ProgEqv (setStale p) p)]
        exact hsup
      · rw [if_neg hsup]
        refine ⟨?_, ih hrest⟩
        intro hstale
        rw [superseded_eqv (listEqv_refresh cur rest) (progEqv_refl p)]
        exact hhead hstale

/-- Staleness soundness is stable as the consumption point advances. -/
theorem staleSound_mono_cur {cur cur2 : Nat} (hc : cur ≤ cur2) :
    ∀ l : List Prog6, StaleSound cur l → StaleSound cur2 l := by
  intro l
  induction l with
  | nil => intro h; exact h
  | cons p rest ih =>
      rintro ⟨hhead, hrest⟩
      exact ⟨fun hstale => superseded_mono_cur hc (hhead hstale), ih hrest⟩

/-- Staleness soundness is preserved by activating a fresh program. -/
theorem staleSound_append_fresh (cur : Nat) (x : Prog6)
    (hx : x.status ≠ CAPTURE_ISP_PROGRAM_STATUS_STALE) :
    ∀ l : List Prog6, StaleSound cur l → StaleSound cur (l ++ [x]) := by
  intro l
  induction l with
  | nil =>
      intro _
      exact ⟨fun h => absurd h hx, trivial⟩
  | cons p rest ih =>
      rintro ⟨hhead, hrest⟩
      exact ⟨fun hstale => superseded_append_single (hhead hstale), ih hrest⟩

/-- Staleness soundness is preserved by marking the bound program used. -/
theorem staleSound_markUsed (fseq sett : Nat) {cur : Nat} :
    ∀ l : List Prog6, StaleSound cur l → StaleSound cur (markUsed fseq sett l) := by
  intro l
  induction l with
  | nil => intro h; exact h
  | cons p rest ih =>
      rintro ⟨hhead, hrest⟩
      simp only [markUsed]
      cases h : activeAt rest fseq sett with
      | some q =>
          refine ⟨?_, ih hrest⟩
          intro hstale
          rw [superseded_eqv (listEqv_markUsed fseq sett rest) (progEqv_refl p)]
          exact hhead hstale
      | none =>
          by_cases hle : condSat fseq sett p = true
          · rw [if_pos hle]
            refine ⟨?_, hrest⟩
            intro hstale
            unfold setUsed at hstale
            by_cases hst : p.status = CAPTURE_ISP_PROGRAM_STATUS_UNKNOWN
            · rw [if_pos hst] at hstale
              simp [CAPTURE_ISP_PROGRAM_STATUS_SUCCESS,
                CAPTURE_ISP_PROGRAM_STATUS_STALE] at hstale
            · rw [if_neg hst] at hstale
              have hsup := hhead hstale
              rw [superseded_eqv (listEqv_refl rest)
                (⟨?_, ?_, ?_⟩ : ProgEqv (setUsed p) p)]
              · exact hsup
              all_goals unfold setUsed
              all_goals rw [if_neg hst]
          · rw [if_neg hle]
            exact ⟨fun hstale => hhead hstale, hrest⟩

/-- After a refresh every superseded program is marked stale. -/
theorem staleComplete_refresh (cur : Nat) :
    ∀ l : List Prog6, StaleComplete cur (refresh cur l) := by
  intro l
  induction l with
  | nil => trivial
  | cons p rest ih =>
      simp only [refresh]
      by_cases hsup : superseded rest cur p = true
      · rw [if_pos hsup]
        exact ⟨fun _ => rfl, ih⟩
      · rw [if_neg hsup]
        refine ⟨?_, ih⟩
        intro habs
        rw [superseded_eqv (listEqv_refresh cur rest) (progEqv_refl p)] at habs
        exact absurd habs hsup

/-- One binding step preserves staleness soundness. -/
theorem isp6Step_staleSound (st : Isp6State) (e : Isp6Event)
    (h : StaleSound st.cur st.progs) :
    StaleSound (isp6Step st e).cur (isp6Step st e).progs := by
  cases e with
  | activate flags sid s =>
      exact staleSound_refresh st.cur _
        (staleSound_append_fresh st.cur
          { settings_id := sid, sequence := s, activate_flags := flags,
            status := CAPTURE_ISP_PROGRAM_STATUS_UNKNOWN }
          (by simp [CAPTURE_ISP_PROGRAM_STATUS_UNKNOWN,
            CAPTURE_ISP_PROGRAM_STATUS_STALE]) st.progs h)
  | consume sett =>
      exact staleSound_refresh (st.cur + 1) _
        (staleSound_mono_cur (Nat.le_succ st.cur) _
          (staleSound_markUsed st.cur sett st.progs h))

/-- One binding step establishes staleness completeness. -/
theorem isp6Step_staleComplete (st : Isp6State) (e : Isp6Event) :
    StaleComplete (isp6Step st e).cur (isp6Step st e).progs := by
  cases e with
  | activate flags sid s => exact staleComplete_refresh st.cur _
  | consume sett => exact staleComplete_refresh (st.cur + 1) _

/-- A binding run preserves staleness soundness. -/
theorem isp6Run_staleSound (events : List Isp6Event) :
    ∀ st0 : Isp6State, StaleSound st0.cur st0.progs →
    StaleSound (isp6Run st0 events).cur (isp6Run st0 events).progs := by
  induction events with
  | nil => intro st0 h; exact h
  | cons e es ih =>
      intro st0 h
      exact ih (isp6Step st0 e) (isp6Step_staleSound st0 e h)

/-- A binding run preserves staleness completeness. -/
theorem isp6Run_staleComplete (events : List Isp6Event) :
    ∀ st0 : Isp6State, StaleComplete st0.cur st0.progs →
    StaleComplete (isp6Run st0 events).cur (isp6Run st0 events).progs := by
  induction events with
  | nil => intro st0 h; exact h
  | cons e es ih =>
      intro st0 _
      exact ih (isp6Step st0 e) (isp6Step_staleComplete st0 e)

/-- Lookup in the left part of an appended list. -/
theorem get_append_left : ∀ (l l2 : List Prog6) (i : Nat) (p : Prog6),
    l.get? i = some p → (l ++ l2).get? i = some p := by
  intro l
  induction l with
  | nil =>
      intro l2 i p h
      simp at h
  | cons q rest ih =>
      intro l2 i p h
      cases i with
      | zero =>
          simp only [List.get?_cons_zero] at h
          simpa using h
      | succ j =>
          simp only [List.get?_cons_succ] at h
          simp only [List.cons_append, List.get?_cons_succ]
          exact ih l2 j p h

/-- A stale program stays stale across a staleness refresh, at the same
position. -/
theorem refresh_stale_get (cur : Nat) :
    ∀ (l : List Prog6) (i : Nat) (p : Prog6),
    l.get? i = some p → p.status = CAPTURE_ISP_PROGRAM_STATUS_STALE →
    ∃ p2, (refresh cur l).get? i = some p2 ∧
      p2.status = CAPTURE_ISP_PROGRAM_STATUS_STALE := by
  intro l
  induction l with
  | nil =>
      intro i p h _
      simp at h
  | cons q rest ih =>
      intro i p h hstale
      cases i with
      | zero =>
          simp only [List.get?_cons_zero] at h
          injection h with h
          subst h
          simp only [refresh, List.get?_cons_zero]
          by_cases hsup : superseded rest cur q = true
          · exact ⟨setStale q, by rw [if_pos hsup], rfl⟩
          · exact ⟨q, by rw [if_neg hsup], hstale⟩
      | succ j =>
          simp only [List.get?_cons_succ] at h
          simp only [refresh, List.get?_cons_succ]
          exact ih j p h hstale

/-- A stale program stays stale when the bound program is marked used, at
the same position. -/
theorem markUsed_stale_get (fseq sett : Nat) :
    ∀ (l : List Prog6) (i : Nat) (p : Prog6),
    l.get? i = some p → p.status = CAPTURE_ISP_PROGRAM_STATUS_STALE →
    ∃ p2, (markUsed fseq sett l).get? i = some p2 ∧
      p2.status = CAPTURE_ISP_PROGRAM_STATUS_STALE := by
  intro l
  induction l with
  | nil =>
      intro i p h _
      simp at h
  | cons q rest ih =>
      intro i p h hstale
      simp only [markUsed]
      cases hact : activeAt rest fseq sett with
      | some r =>
          cases i with
          | zero =>
              simp only [List.get?_cons_zero] at h
              injection h with h
              subst h
              exact ⟨q, by simp, hstale⟩
          | succ j =>
              simp only [List.get?_cons_succ] at h
              simp only [List.get?_cons_succ]
              exact ih j p h hstale
      | none =>
          cases i with
          | zero =>
              simp only [List.get?_cons_zero] at h
              injection h with h
              subst h
              by_cases hle : condSat fseq sett q = true
              · have hnu : q.status ≠ CAPTURE_ISP_PROGRAM_STATUS_UNKNOWN := by
                  rw [hstale]
                  decide
                have hused : setUsed q = q := by
                  unfold setUsed
                  rw [if_neg hnu]
                refine ⟨q, ?_, hstale⟩
                rw [if_pos hle, hused]
                simp
              · exact ⟨q, by rw [if_neg hle]; simp, hstale⟩
          | succ j =>
              simp only [List.get?_cons_succ] at h
              simp only [List.get?_cons_succ]
              exact ⟨p, h, hstale⟩

/-- One binding step keeps every stale program stale at its position. -/
theorem isp6Step_stale_get (st : Isp6State) (e : Isp6Event) (i : Nat) (p : Prog6)
    (h : st.progs.get? i = some p)
    (hstale : p.status = CAPTURE_ISP_PROGRAM_STATUS_STALE) :
    ∃ p2, (isp6Step st e).progs.get? i = some p2 ∧
      p2.status = CAPTURE_ISP_PROGRAM_STATUS_STALE := by
  cases e with
  | activate flags sid s =>
      simp only [isp6Step]
      exact refresh_stale_get st.cur _ i p (get_append_left st.progs _ i p h) hstale
  | consume sett =>
      simp only [isp6Step]
      obtain ⟨p2, h2, hs2⟩ := markUsed_stale_get st.cur sett st.progs i p h hstale
      exact refresh_stale_get (st.cur + 1) _ i p2 h2 hs2

/-- The smallest activation sequence of a list is attained by a member. -/
theorem minSeq_attained : ∀ (l : List Prog6) (m : Nat),
    minSeq l = some m → ∃ q ∈ l, q.sequence = m := by
  intro l
  induction l with
  | nil =>
      intro m h
      simp [minSeq] at h
  | cons p rest ih =>
      intro m h
      simp only [minSeq] at h
      cases h2 : minSeq rest with
      | none =>
          rw [h2] at h
          injection h with h
          exact ⟨p, List.mem_cons_self p rest, h⟩
      | some m2 =>
          rw [h2] at h
          injection h with h
          by_cases hle : p.sequence ≤ m2
          · have hmin : min p.sequence m2 = p.sequence := Nat.min_eq_left hle
            exact ⟨p, List.mem_cons_self p rest, by rw [← h, hmin]⟩
          · have hmin : min p.sequence m2 = m2 :=
              Nat.min_eq_right (Nat.le_of_not_le hle)
            obtain ⟨q2, hq2, hqm⟩ := ih m2 h2
            exact ⟨q2, List.mem_cons_of_mem p hq2, by rw [hqm, ← h, hmin]⟩

/-- The program bound at the consumption point is not superseded by the
activations that follow it. -/
theorem active_not_superseded (l : List Prog6) (cur sett : Nat) (p : Prog6)
    (h : activeAt l cur sett = some p) :
    ∃ pre post, l = pre ++ p :: post ∧ superseded post cur p = false := by
  obtain ⟨pre, post, heq, hsat, hpost⟩ := (activeAt_some_iff cur sett l p).mp h
  refine ⟨pre, post, heq, ?_⟩
  unfold superseded
  by_cases hf : p.activate_flags = CAPTURE_ACTIVATE_FLAG_ON_SEQUENCE_ID
  · rw [if_pos hf]
    cases hm : minSeq (seqProgs post) with
    | none => rfl
    | some m =>
        obtain ⟨q2, hq2, hqm⟩ := minSeq_attained (seqProgs post) m hm
        simp only [seqProgs] at hq2
        have hq2both := List.mem_filter.mp hq2
        have hq2mem : q2 ∈ post := hq2both.1
        have hq2f : q2.activate_flags = CAPTURE_ACTIVATE_FLAG_ON_SEQUENCE_ID :=
          of_decide_eq_true hq2both.2
        have hq2sat := hpost q2 hq2mem
        rw [condSat, if_pos hq2f] at hq2sat
        have hq2gt : cur < q2.sequence := by
          have := of_decide_eq_false hq2sat
          omega
        have hple : p.sequence ≤ cur := by
          rw [condSat, if_pos hf] at hsat
          exact of_decide_eq_true hsat
        have hmax : max cur p.sequence = cur := Nat.max_eq_left hple
        rw [hmax]
        simp only
        exact decide_eq_false (by omega)
  · rw [if_neg hf]

/-- Soundness of staleness marking, read off at a decomposition. -/
theorem staleSound_decomp : ∀ (pre : List Prog6) (p : Prog6) (post : List Prog6)
    (cur : Nat), StaleSound cur (pre ++ p :: post) →
    p.status = CAPTURE_ISP_PROGRAM_STATUS_STALE → superseded post cur p = true := by
  intro pre
  induction pre with
  | nil =>
      intro p post cur h hs
      exact h.1 hs
  | cons x pre2 ih =>
      intro p post cur h hs
      exact ih p post cur h.2 hs

/-- In a staleness-sound state the bound program is never stale. -/
theorem bound_not_stale (st : Isp6State) (sett : Nat) (p : Prog6)
    (hsound : StaleSound st.cur st.progs) (hbind : bindOf st sett = some p) :
    p.status ≠ CAPTURE_ISP_PROGRAM_STATUS_STALE := by
  intro hstale
  obtain ⟨pre, post, heq, hsup⟩ :=
    active_not_superseded st.progs st.cur sett p hbind
  rw [heq] at hsound
  have htrue := staleSound_decomp pre p post st.cur hsound hstale
  rw [htrue] at hsup
  simp at hsup

/-- Resolution over a list extended by one activation: the newest
activation wins whenever its condition is satisfied. -/
theorem activeAt_append_single (fseq sett : Nat) : ∀ (l : List Prog6) (x : Prog6),
    activeAt (l ++ [x]) fseq sett =
      if condSat fseq sett x then some x else activeAt l fseq sett := by
  intro l x
  induction l with
  | nil =>
      show activeAt [x] fseq sett = _
      simp only [activeAt]
  | cons q rest ih =>
      show activeAt (q :: (rest ++ [x])) fseq sett = _
      simp only [activeAt, ih]
      by_cases hx : condSat fseq sett x = true
      · rw [if_pos hx, if_pos hx]
      · rw [if_neg hx, if_neg hx]

/-- Resolution depends only on program identities and condition values. -/
theorem activeAt_condEqv (fseq sett : Nat) : ∀ {l l2 : List Prog6},
    List.Forall₂ (CondEqv fseq sett) l l2 →
    (activeAt l fseq sett).map progProj = (activeAt l2 fseq sett).map progProj := by
  intro l l2 h
  induction h with
  | nil => rfl
  | cons h1 h2 ih =>
      rename_i a b l1 l2
      simp only [activeAt]
      cases ha : activeAt l1 fseq sett with
      | some r =>
          cases hb : activeAt l2 fseq sett with
          | none =>
              rw [ha, hb] at ih
              simp at ih
          | some r2 =>
              rw [ha, hb] at ih
              simpa using ih
      | none =>
          cases hb : activeAt l2 fseq sett with
          | some r2 =>
              rw [ha, hb] at ih
              simp at ih
          | none =>
              rw [h1.2]
              by_cases hbs : condSat fseq sett b = true
              · rw [if_pos hbs, if_pos hbs]
                simp only [Option.map_some']
                rw [h1.1]
              · rw [if_neg hbs, if_neg hbs]

/-- Staleness refresh never changes a program identity or its condition
value: stale marking only touches superseded on-sequence-id programs,
whose condition ignores the status field. -/
theorem refresh_condEqv (fseq sett cur : Nat) :
    ∀ l : List Prog6, List.Forall₂ (CondEqv fseq sett) (refresh cur l) l := by
  intro l
  induction l with
  | nil => exact List.Forall₂.nil
  | cons p rest ih =>
      simp only [refresh]
      refine List.Forall₂.cons ?_ ih
      by_cases hsup : superseded rest cur p = true
      · rw [if_pos hsup]
        have hf := superseded_flag hsup
        refine ⟨rfl, ?_⟩
        simp [condSat, setStale, hf]
      · rw [if_neg hsup]
        exact ⟨rfl, rfl⟩

/-- A program that is not on-sequence-id passes through a staleness
refresh untouched. -/
theorem refresh_get_keep (cur : Nat) :
    ∀ (l : List Prog6) (i : Nat) (p : Prog6),
    l.get? i = some p →
    p.activate_flags ≠ CAPTURE_ACTIVATE_FLAG_ON_SEQUENCE_ID →
    (refresh cur l).get? i = some p := by
  intro l
  induction l with
  | nil =>
      intro i p h _
      simp at h
  | cons q rest ih =>
      intro i p h hflag
      cases i with
      | zero =>
          simp only [List.get?_cons_zero] at h
          injection h with h
          subst h
          have hsup : superseded rest cur q = false := by
            unfold superseded
            rw [if_neg hflag]
          simp only [refresh, List.get?_cons_zero]
          rw [if_neg (by simp [hsup])]
      | succ j =>
          simp only [List.get?_cons_succ] at h
          simp only [refresh, List.get?_cons_succ]
          exact ih j p h hflag

/-- The program bound by a consume is marked used at its position. -/
theorem markUsed_active (fseq sett : Nat) :
    ∀ (l : List Prog6) (p : Prog6), activeAt l fseq sett = some p →
    ∃ i, l.get? i = some p ∧ (markUsed fseq sett l).get? i = some (setUsed p) := by
  intro l
  induction l with
  | nil =>
      intro p h
      exact absurd h (by simp [activeAt])
  | cons q rest ih =>
      intro p h
      simp only [activeAt] at h
      cases hact : activeAt rest fseq sett with
      | some r =>
          rw [hact] at h
          injection h with h
          subst h
          obtain ⟨i, hi, hi2⟩ := ih r hact
          refine ⟨i + 1, ?_, ?_⟩
          · simp only [List.get?_cons_succ]
            exact hi
          · simp only [markUsed, hact, List.get?_cons_succ]
            exact hi2
      | none =>
          rw [hact] at h
          cases hc : condSat fseq sett q with
          | false =>
              rw [if_neg (by simp [hc])] at h
              exact absurd h (by simp)
          | true =>
              rw [if_pos hc] at h
              injection h with h
              subst h
              refine ⟨0, by simp, ?_⟩
              simp only [markUsed, hact, if_pos hc, List.get?_cons_zero]

/-- A used coupled program never satisfies its activation condition
again. -/
theorem coupled_used_not_sat (p : Prog6)
    (hflag : p.activate_flags = CAPTURE_ACTIVATE_FLAG_COUPLED)
    (hst : p.status ≠ CAPTURE_ISP_PROGRAM_STATUS_UNKNOWN) :
    ∀ fs se : Nat, condSat fs se p = false := by
  intro fs se
  unfold condSat
  rw [hflag]
  rw [if_neg (by simp [CAPTURE_ACTIVATE_FLAG_COUPLED,
    CAPTURE_ACTIVATE_FLAG_ON_SEQUENCE_ID])]
  rw [if_neg (by simp [CAPTURE_ACTIVATE_FLAG_COUPLED,
    CAPTURE_ACTIVATE_FLAG_ON_SETTINGS_ID])]
  rw [if_pos rfl]
  exact decide_eq_false hst

/-- Claim C6: for every process descriptor, binding resolves at the
descriptor's consumption time: the most recently activated program whose
activation condition — on-sequence-id sequence threshold, on-settings-id
settings threshold, or coupled (program not yet used by its single paired
request) — is satisfied for the current request wins, even if it was
activated after the process request was submitted; a program activated
with sequence s0 under on-sequence-id is the active program exactly for
the sequences from s0 onwards not covered by a later activation; at most
one program is active for any given request; a coupled program bound to a
request is marked used by that consume and its condition is never
satisfied again, so it is never silently reused; a superseded program is
marked with the terminal stale status, stays stale under every further
event, and is never bound again. -/
theorem claim_C6_program_binding
    (events : List Isp6Event) (flags sid sact fseq sett i : Nat)
    (p q : Prog6) (e : Isp6Event) :
    (condSat (isp6Run isp6Init events).cur sett
        { settings_id := sid, sequence := sact, activate_flags := flags,
          status := CAPTURE_ISP_PROGRAM_STATUS_UNKNOWN } = true →
      (bindOf (isp6Step (isp6Run isp6Init events) (.activate flags sid sact))
          sett).map progProj = some (sid, sact)) ∧
    ((p.activate_flags = CAPTURE_ACTIVATE_FLAG_ON_SEQUENCE_ID →
        (condSat fseq sett p = true ↔ p.sequence ≤ fseq)) ∧
      (p.activate_flags = CAPTURE_ACTIVATE_FLAG_ON_SETTINGS_ID →
        (condSat fseq sett p = true ↔ p.settings_id ≤ sett)) ∧
      (p.activate_flags = CAPTURE_ACTIVATE_FLAG_COUPLED →
        (condSat fseq sett p = true ↔
          p.status = CAPTURE_ISP_PROGRAM_STATUS_UNKNOWN))) ∧
    (IsActiveFor (isp6Run isp6Init events).progs fseq sett p ↔
      activeAt (isp6Run isp6Init events).progs fseq sett = some p) ∧
    (IsActiveFor (isp6Run isp6Init events).progs fseq sett p →
      IsActiveFor (isp6Run isp6Init events).progs fseq sett q → p = q) ∧
    (bindOf (isp6Run isp6Init events) sett = some p →
      condSat (isp6Run isp6Init events).cur sett p = true ∧
      (p.activate_flags = CAPTURE_ACTIVATE_FLAG_COUPLED →
        p.status = CAPTURE_ISP_PROGRAM_STATUS_UNKNOWN ∧
        ∃ j, (isp6Run isp6Init events).progs.get? j = some p ∧
          (isp6Step (isp6Run isp6Init events) (.consume sett)).progs.get? j =
            some (setUsed p) ∧
          (setUsed p).status = CAPTURE_ISP_PROGRAM_STATUS_SUCCESS)) ∧
    (q.activate_flags = CAPTURE_ACTIVATE_FLAG_COUPLED →
      q.status ≠ CAPTURE_ISP_PROGRAM_STATUS_UNKNOWN →
      condSat fseq sett q = false) ∧
    ((isp6Run isp6Init events).progs.get? i = some p →
      p.status = CAPTURE_ISP_PROGRAM_STATUS_STALE →
      ∃ p2, (isp6Step (isp6Run isp6Init events) e).progs.get? i = some p2 ∧
        p2.status = CAPTURE_ISP_PROGRAM_STATUS_STALE) ∧
    (bindOf (isp6Run isp6Init events) sett = some p →
      p.status ≠ CAPTURE_ISP_PROGRAM_STATUS_STALE) ∧
    StaleComplete (isp6Run isp6Init events).cur (isp6Run isp6Init events).progs := by
  refine ⟨?_, ⟨?_, ?_, ?_⟩, ?_, ?_, ?_, ?_, ?_, ?_, ?_⟩
  · intro hsat
    simp only [isp6Step, bindOf]
    rw [activeAt_condEqv _ _ (refresh_condEqv _ _ _ _)]
    rw [activeAt_append_single]
    rw [if_pos hsat]
    rfl
  · intro hf
    unfold condSat
    rw [if_pos hf]
    simp
  · intro hf
    unfold condSat
    rw [hf]
    rw [if_neg (by simp [CAPTURE_ACTIVATE_FLAG_ON_SETTINGS_ID,
      CAPTURE_ACTIVATE_FLAG_ON_SEQUENCE_ID])]
    rw [if_pos rfl]
    simp
  · intro hf
    unfold condSat
    rw [hf]
    rw [if_neg (by simp [CAPTURE_ACTIVATE_FLAG_COUPLED,
      CAPTURE_ACTIVATE_FLAG_ON_SEQUENCE_ID])]
    rw [if_neg (by simp [CAPTURE_ACTIVATE_FLAG_COUPLED,
      CAPTURE_ACTIVATE_FLAG_ON_SETTINGS_ID])]
    rw [if_pos rfl]
    simp
  · exact (activeAt_some_iff fseq sett _ p).symm
  · intro hp hq
    have h1 := (activeAt_some_iff fseq sett _ p).mpr hp
    have h2 := (activeAt_some_iff fseq sett _ q).mpr hq
    rw [h1] at h2
    exact Option.some.inj h2
  · intro hbind
    have hbind2 : activeAt (isp6Run isp6Init events).progs
        (isp6Run isp6Init events).cur sett = some p := hbind
    obtain ⟨pre, post, heq, hsat, hpost⟩ :=
      (activeAt_some_iff _ sett _ p).mp hbind2
    refine ⟨hsat, ?_⟩
    intro hflag
    have hunk : p.status = CAPTURE_ISP_PROGRAM_STATUS_UNKNOWN := by
      rw [condSat, hflag] at hsat
      rw [if_neg (by simp [CAPTURE_ACTIVATE_FLAG_COUPLED,
        CAPTURE_ACTIVATE_FLAG_ON_SEQUENCE_ID])] at hsat
      rw [if_neg (by simp [CAPTURE_ACTIVATE_FLAG_COUPLED,
        CAPTURE_ACTIVATE_FLAG_ON_SETTINGS_ID])] at hsat
      rw [if_pos rfl] at hsat
      exact of_decide_eq_true hsat
    obtain ⟨j, hj, hj2⟩ := markUsed_active _ sett _ p hbind2
    refine ⟨hunk, j, hj, ?_, ?_⟩
    · simp only [isp6Step]
      refine refresh_get_keep (isp6Run isp6Init events).cur.succ _ j (setUsed p) hj2 ?_
      have hfl : (setUsed p).activate_flags = p.activate_flags := by
        unfold setUsed
        by_cases hst : p.status = CAPTURE_ISP_PROGRAM_STATUS_UNKNOWN
        · rw [if_pos hst]
        · rw [if_neg hst]
      rw [hfl, hflag]
      simp [CAPTURE_ACTIVATE_FLAG_COUPLED, CAPTURE_ACTIVATE_FLAG_ON_SEQUENCE_ID]
    · unfold setUsed
      rw [if_pos hunk]
  · intro hflag hst
    exact coupled_used_not_sat q hflag hst fseq sett
  · intro h hstale
    exact isp6Step_stale_get _ e i p h hstale
  · intro hbind
    exact bound_not_stale _ sett p (isp6Run_staleSound events isp6Init trivial) hbind
  · exact isp6Run_staleComplete events isp6Init trivial

/-- Witness for claim C6: a coupled program activated after the concrete
on-sequence-id trace is bound to the next request, showing
consumption-time resolution across activation conditions. -/
theorem claim_C6_witness :
    (bindOf (isp6Step (isp6Run isp6Init exampleIsp6Trace)
        (.activate CAPTURE_ACTIVATE_FLAG_COUPLED 9 5)) 0).map progProj =
      some (9, 5) :=
  (claim_C6_program_binding exampleIsp6Trace CAPTURE_ACTIVATE_FLAG_COUPLED 9 5 0 0 0
      ⟨0, 0, 0, 0⟩ ⟨0, 0, 0, 0⟩ (Isp6Event.consume 0)).1 (by decide)

end CamRtc
